import Mathlib

/-!
Verification of the CCTV behavior-analysis core
(`backend/app/detection/behavior_analyzer.py`).

Shallow embedding conventions:
* pixel coordinates are integers (the object detector builds every
  center and bounding-box coordinate with `int(...)`, so ℤ covers every
  value the tracker is fed);
* the source compares Euclidean distances (`math.sqrt`) against constant
  thresholds; we store squared distances and compare against squared
  thresholds, which is equivalent (bridge lemmas `rdist_lt_const_iff` and
  `rdist_lt_rdist_iff` below record the equivalence against the real
  square-root distance `rdist`);
* frame counters are naturals; Python subtractions such as
  `frame_count - last_seen > 30` are rendered subtraction-free as
  `last_seen + 30 < frame_count`, which is exactly equivalent over ℤ;
* `get_speed` and the erratic-angle test genuinely produce real numbers;
  they are embedded over ℝ (`Real.sqrt`, `Real.arccos`).
-/

/-- Squared Euclidean distance between two points, in ℤ. -/
def dist2 (p q : ℤ × ℤ) : ℤ :=
  (q.1 - p.1) ^ 2 + (q.2 - p.2) ^ 2

/-- Euclidean distance between two points, as the source computes it
(`math.sqrt((x2-x1)**2 + (y2-y1)**2)`). -/
noncomputable def rdist (p q : ℤ × ℤ) : ℝ :=
  Real.sqrt ((dist2 p q : ℤ) : ℝ)

/-- Suffix of the last `k` elements of a list (Python `l[-k:]`). -/
def lastN (k : ℕ) (l : List α) : List α :=
  l.drop (l.length - k)

/-- Append to a `deque(maxlen=30)`: append, then keep the last 30. -/
def push30 (l : List α) (x : α) : List α :=
  lastN 30 (l ++ [x])

/-- One detection handed to the tracker.  The source passes a dict with
keys `class_name`, `center`, `bbox` (plus detector-only keys `class_id`,
`confidence`, `width`, `height` that the tracker never reads). -/
structure Detection where
  class_name : String
  center : ℤ × ℤ
  bbox : ℤ × ℤ × ℤ × ℤ
  deriving DecidableEq

/-- State of one tracked object (`class TrackedObject`).  The write-only
fields of the source (`total_distance`, `suspicious_behavior`,
`behavior_type`, `confidence`) are never read anywhere and are omitted. -/
structure TrackedObject where
  id : ℕ
  class_name : String
  first_seen : ℕ
  last_seen : ℕ
  position_history : List (ℤ × ℤ)
  bbox_history : List (ℤ × ℤ × ℤ × ℤ)
  is_stationary : Bool
  stationary_frames : ℕ
  deriving DecidableEq

/-- Most recent stored position, `position_history[-1]`.  Histories are
nonempty by construction (see `trackedObject_invariant`); the default is
never hit on reachable states. -/
def lastPos (t : TrackedObject) : ℤ × ℤ :=
  (t.position_history.getLast?).getD (0, 0)

/-- `TrackedObject.__init__`. -/
def TrackedObject.init (object_id : ℕ) (det : Detection) (frame_number : ℕ) :
    TrackedObject :=
  { id := object_id
    class_name := det.class_name
    first_seen := frame_number
    last_seen := frame_number
    position_history := [det.center]
    bbox_history := [det.bbox]
    is_stationary := false
    stationary_frames := 0 }

/-- `TrackedObject.update`.  The source tests `distance < 10`; we test
`dist2 < 100`, equivalent by `rdist_lt_const_iff`. -/
def TrackedObject.update (t : TrackedObject) (det : Detection)
    (frame_number : ℕ) : TrackedObject :=
  let prev := lastPos t
  let d2 := dist2 prev det.center
  { t with
    last_seen := frame_number
    position_history := push30 t.position_history det.center
    bbox_history := push30 t.bbox_history det.bbox
    stationary_frames := if d2 < 100 then t.stationary_frames + 1 else 0
    is_stationary :=
      if d2 < 100 then
        (if 30 < t.stationary_frames + 1 then true else t.is_stationary)
      else false }

/-- Sum of the Euclidean distances of consecutive pairs of a position
list (the loop body of `get_speed`). -/
noncomputable def pathLen : List (ℤ × ℤ) → ℝ
  | a :: b :: r => rdist a b + pathLen (b :: r)
  | _ => 0

/-- `TrackedObject.get_speed`: average step length over the last 10
stored positions (all of them when fewer), 0 with fewer than 2. -/
noncomputable def TrackedObject.get_speed (t : TrackedObject) : ℝ :=
  if t.position_history.length < 2 then 0
  else
    let recent := lastN 10 t.position_history
    pathLen recent / ((recent.length - 1 : ℕ) : ℝ)

/-- `TrackedObject.is_moving_fast` with its default threshold. -/
noncomputable def TrackedObject.is_moving_fast (t : TrackedObject)
    (threshold : ℝ := 15) : Prop :=
  threshold < t.get_speed

/-- `TrackedObject.time_in_view`. -/
def TrackedObject.time_in_view (t : TrackedObject) : ℕ :=
  t.last_seen - t.first_seen + 1

/-- Cast a rational point to the real plane. -/
def castPt (p : ℤ × ℤ) : ℝ × ℝ := ((p.1 : ℝ), (p.2 : ℝ))

/-- The loop body of `detect_erratic_movement` for one triple of
positions: both displacement vectors have positive magnitude and the
angle between them (dot-product formula, cosine clamped to [-1,1],
inverse cosine) exceeds 90 degrees. -/
noncomputable def dirChange (p0 p1 p2 : ℝ × ℝ) : Prop :=
  0 < (p1.1 - p0.1) ^ 2 + (p1.2 - p0.2) ^ 2 ∧
  0 < (p2.1 - p1.1) ^ 2 + (p2.2 - p1.2) ^ 2 ∧
    Real.pi / 2 <
      Real.arccos (max (-1) (min 1
        (((p1.1 - p0.1) * (p2.1 - p1.1) + (p1.2 - p0.2) * (p2.2 - p1.2)) /
          (Real.sqrt ((p1.1 - p0.1) ^ 2 + (p1.2 - p0.2) ^ 2) *
            Real.sqrt ((p2.1 - p1.1) ^ 2 + (p2.2 - p1.2) ^ 2)))))

open Classical in
/-- Number of direction changes over a position list (the counting loop
of `detect_erratic_movement`, sliding over consecutive triples). -/
noncomputable def countDC : List (ℝ × ℝ) → ℕ
  | p0 :: p1 :: p2 :: rest => (if dirChange p0 p1 p2 then 1 else 0) + countDC (p1 :: p2 :: rest)
  | _ => 0

/-- `detect_erratic_movement` on a raw position list: needs at least 10
positions, then counts direction changes over the last 15 and qualifies
at 5 or more. -/
noncomputable def erraticPts (ps : List (ℝ × ℝ)) : Prop :=
  ¬ ps.length < 10 ∧ 5 ≤ countDC (lastN 15 ps)

/-- `BehaviorAnalyzer.detect_erratic_movement` applied to a track. -/
noncomputable def detect_erratic (t : TrackedObject) : Prop :=
  erraticPts (t.position_history.map castPt)

/-- `class BehaviorAnalyzer`: the mutable analyzer state.  `tracked_objects`
and `alert_cooldown` are Python dicts, modeled as insertion-ordered
association lists. -/
structure AnalyzerState where
  tracked_objects : List (ℕ × TrackedObject)
  next_object_id : ℕ
  frame_count : ℕ
  alert_cooldown : List (ℕ × ℕ)
  deriving DecidableEq

/-- `BehaviorAnalyzer.__init__`. -/
def AnalyzerState.start : AnalyzerState :=
  { tracked_objects := [], next_object_id := 0, frame_count := 0, alert_cooldown := [] }

/-- Association-list lookup (Python `d[k]` / `k in d`). -/
def alLookup (l : List (ℕ × α)) (k : ℕ) : Option α :=
  match l with
  | [] => none
  | (j, v) :: r => if j = k then some v else alLookup r k

/-- Association-list write `d[k] = v`: replace in place if present
(Python dicts keep insertion order), else append. -/
def alSet (l : List (ℕ × α)) (k : ℕ) (v : α) : List (ℕ × α) :=
  match l with
  | [] => [(k, v)]
  | (j, w) :: r => if j = k then (j, v) :: r else (j, w) :: alSet r k v

/-- The candidate scan of `match_detection_to_tracked`: walk the track
list keeping the best (id, squared distance) seen so far.  The source
keeps the best plain distance initialized to `max_distance = 100`; we
keep squared distances initialized to `10000 = 100²`, equivalent by
`rdist_lt_rdist_iff` / `rdist_lt_const_iff`. -/
def matchGo (frame : ℕ) (det : Detection) :
    List (ℕ × TrackedObject) → Option ℕ × ℤ → Option ℕ × ℤ
  | [], best => best
  | (i, t) :: rest, (bid, bd) =>
    if t.class_name ≠ det.class_name then matchGo frame det rest (bid, bd)
    else if t.last_seen + 10 < frame then matchGo frame det rest (bid, bd)
    else
      let d2 := dist2 (lastPos t) det.center
      if d2 < bd then matchGo frame det rest (some i, d2)
      else matchGo frame det rest (bid, bd)

/-- `BehaviorAnalyzer.match_detection_to_tracked` (default match radius
of 100 px, as used by `update_tracks`). -/
def match_detection_to_tracked (s : AnalyzerState) (det : Detection) : Option ℕ :=
  (matchGo s.frame_count det s.tracked_objects (none, 10000)).1

/-- The per-detection body of `update_tracks`: update the matched track,
or create a new one with a fresh id. -/
def processDetection (s : AnalyzerState) (det : Detection) : AnalyzerState :=
  match match_detection_to_tracked s det with
  | some i =>
    let upd : ℕ × TrackedObject → ℕ × TrackedObject :=
      fun e => if e.1 = i then (e.1, e.2.update det s.frame_count) else e
    { s with tracked_objects := s.tracked_objects.map upd }
  | none =>
    let nt := TrackedObject.init s.next_object_id det s.frame_count
    { s with
      tracked_objects := s.tracked_objects ++ [(s.next_object_id, nt)]
      next_object_id := s.next_object_id + 1 }

/-- `BehaviorAnalyzer.update_tracks`: bump the frame counter, process
each detection in input order, then drop tracks not seen for more than
30 frames (`frame_count - last_seen > 30`, i.e. keep iff
`frame_count ≤ last_seen + 30`).  The source also builds a `matched_ids`
set, which it never reads; it is omitted. -/
def update_tracks (s : AnalyzerState) (detections : List Detection) : AnalyzerState :=
  let s1 := { s with frame_count := s.frame_count + 1 }
  let s2 := detections.foldl processDetection s1
  { s2 with tracked_objects :=
      s2.tracked_objects.filter (fun e => s2.frame_count ≤ e.2.last_seen + 30) }

/-- Cooldown gate of `detect_suspicious_behaviors`: the object is skipped
iff it has a cooldown entry and `frame_count - last_alert < 90`
(rendered `frame_count < last_alert + 90`). -/
def cooldownActive (cd : List (ℕ × ℕ)) (frame : ℕ) (i : ℕ) : Bool :=
  match alLookup cd i with
  | none => false
  | some m => decide (frame < m + 90)

/-- Suspicious-behavior event (`description`, a formatted display
string, is presentation-only and omitted). -/
structure SuspiciousEvent where
  object_id : ℕ
  behavior_type : String
  confidence : ℝ
  position : ℤ × ℤ
  class_name : String

/-- The fast-movement event built by `detect_suspicious_behaviors`. -/
noncomputable def fastEvent (i : ℕ) (t : TrackedObject) : SuspiciousEvent :=
  { object_id := i, behavior_type := "fast_movement"
    confidence := min (t.get_speed / 30) 1
    position := lastPos t, class_name := t.class_name }

/-- The loitering event built by `detect_suspicious_behaviors`. -/
noncomputable def loiterEvent (i : ℕ) (t : TrackedObject) : SuspiciousEvent :=
  { object_id := i, behavior_type := "loitering"
    confidence := min ((t.time_in_view : ℝ) / 300) 1
    position := lastPos t, class_name := t.class_name }

/-- The erratic-movement event built by `detect_suspicious_behaviors`. -/
def erraticEvent (i : ℕ) (t : TrackedObject) : SuspiciousEvent :=
  { object_id := i, behavior_type := "erratic_movement"
    confidence := (0.7 : ℝ)
    position := lastPos t, class_name := t.class_name }

open Classical in
/-- The per-object body of `detect_suspicious_behaviors`: non-person
tracks are skipped; a single cooldown check on the object id gates all
three behaviors; each qualifying behavior appends its event and stamps
`alert_cooldown[obj_id] = frame_count`. -/
noncomputable def detectStep (frame : ℕ)
    (acc : List SuspiciousEvent × List (ℕ × ℕ)) (e : ℕ × TrackedObject) :
    List SuspiciousEvent × List (ℕ × ℕ) :=
  if e.2.class_name ≠ "person" then acc
  else if cooldownActive acc.2 frame e.1 then acc
  else
    let a1 := if e.2.is_moving_fast ∧ 10 < e.2.time_in_view
      then (acc.1 ++ [fastEvent e.1 e.2], alSet acc.2 e.1 frame) else acc
    let a2 := if e.2.is_stationary = true ∧ 150 < e.2.time_in_view
      then (a1.1 ++ [loiterEvent e.1 e.2], alSet a1.2 e.1 frame) else a1
    if detect_erratic e.2
      then (a2.1 ++ [erraticEvent e.1 e.2], alSet a2.2 e.1 frame) else a2

/-- `BehaviorAnalyzer.detect_suspicious_behaviors`: returns the emitted
events together with the updated `alert_cooldown` (mutated in place in
the source). -/
noncomputable def detect_suspicious_behaviors (s : AnalyzerState) :
    List SuspiciousEvent × List (ℕ × ℕ) :=
  s.tracked_objects.foldl (detectStep s.frame_count) ([], s.alert_cooldown)

/-- One frame of the surveillance loop as far as the analyzer is
concerned (`surveillance_system.py`): `update_tracks` with the frame's
detections, then `detect_suspicious_behaviors`. -/
noncomputable def analyzerStep (s : AnalyzerState) (dets : List Detection) :
    AnalyzerState × List SuspiciousEvent :=
  let s1 := update_tracks s dets
  let r := detect_suspicious_behaviors s1
  ({ s1 with alert_cooldown := r.2 }, r.1)

/-! ## Auxiliary definitions used by the verification statements. -/

/-- The class/recency part of matching eligibility: identical class and
seen within the last 10 frames. -/
def matchEligible (frame : ℕ) (det : Detection) (t : TrackedObject) : Prop :=
  t.class_name = det.class_name ∧ frame ≤ t.last_seen + 10

/-- The tracker state right before the eviction sweep of `update_tracks`:
frame bumped and all detections processed. -/
def preEvict (s : AnalyzerState) (detections : List Detection) : AnalyzerState :=
  detections.foldl processDetection { s with frame_count := s.frame_count + 1 }

/-- The per-track data invariant: parallel histories of equal length
between 1 and 30, and a well-ordered seen interval. -/
def TrackInv (t : TrackedObject) : Prop :=
  t.position_history.length = t.bbox_history.length ∧
  1 ≤ t.position_history.length ∧ t.position_history.length ≤ 30 ∧
  t.first_seen ≤ t.last_seen

/-- Erase the bbox history of a track (tracking behavior never reads it). -/
def stripBB (t : TrackedObject) : TrackedObject :=
  { t with bbox_history := [] }

/-- Erase all bbox histories of a tracker state. -/
def stripState (s : AnalyzerState) : AnalyzerState :=
  { s with tracked_objects := s.tracked_objects.map fun e => (e.1, stripBB e.2) }

/-- Euclidean lengths of all consecutive position pairs of a history. -/
noncomputable def pairDists : List (ℤ × ℤ) → List ℝ
  | a :: b :: r => rdist a b :: pairDists (b :: r)
  | _ => []

/-- The speed statistic as the spec's sentence reads literally: the
average over the last min(10, history length) consecutive position
pairs (this is the comparison definition for the speed claim; the
source-derived definition is `TrackedObject.get_speed`). -/
noncomputable def specSpeedPairs (t : TrackedObject) : ℝ :=
  if t.position_history.length < 2 then 0
  else
    let ds := lastN (min 10 t.position_history.length) (pairDists t.position_history)
    ds.sum / (ds.length : ℝ)

/-- A track whose 11-position history starts with one 90 px step and
then stays put. -/
def cexSpeedTrack : TrackedObject :=
  { id := 0, class_name := "person", first_seen := 1, last_seen := 11
    position_history := [(0, 0), (90, 0), (90, 0), (90, 0), (90, 0), (90, 0),
      (90, 0), (90, 0), (90, 0), (90, 0), (90, 0)]
    bbox_history := List.replicate 11 (0, 0, 10, 10)
    is_stationary := false, stationary_frames := 0 }

/-- Some event in the list reports track `i` with behavior kind `k`. -/
def eventFor (evs : List SuspiciousEvent) (i : ℕ) (k : String) : Prop :=
  ∃ ev ∈ evs, ev.object_id = i ∧ ev.behavior_type = k

/-- The qualification condition of each behavior kind, as tested by
`detect_suspicious_behaviors` (independently of any cooldown). -/
def kindQualifies (k : String) (t : TrackedObject) : Prop :=
  if k = "fast_movement" then t.is_moving_fast ∧ 10 < t.time_in_view
  else if k = "loitering" then t.is_stationary = true ∧ 150 < t.time_in_view
  else if k = "erratic_movement" then detect_erratic t
  else False

open Classical in
/-- The events one object contributes in one classification pass when
its cooldown gate is open, in the source's fixed order. -/
noncomputable def entryEvents (i : ℕ) (t : TrackedObject) : List SuspiciousEvent :=
  (if t.is_moving_fast ∧ 10 < t.time_in_view then [fastEvent i t] else []) ++
  (if t.is_stationary = true ∧ 150 < t.time_in_view then [loiterEvent i t] else []) ++
  (if detect_erratic t then [erraticEvent i t] else [])

/-- Some behavior kind of the object qualifies this frame. -/
def entryFired (t : TrackedObject) : Prop :=
  (t.is_moving_fast ∧ 10 < t.time_in_view) ∨
  (t.is_stationary = true ∧ 150 < t.time_in_view) ∨ detect_erratic t

/-- A sample bounding box. -/
def bb0 : ℤ × ℤ × ℤ × ℤ := (0, 0, 10, 10)

/-- A person detection at the origin. -/
def dP : Detection := { class_name := "person", center := (0, 0), bbox := bb0 }

/-- A person detection 1 px to the right of the origin. -/
def dB : Detection := { class_name := "person", center := (1, 0), bbox := bb0 }

/-- A person detection with a malformed bounding box (x1 = 50 ≥ x2 = 40),
far away from the origin. -/
def dBad : Detection :=
  { class_name := "person", center := (300, 300), bbox := (50, 0, 40, 10) }

/-- A stationary person track, in view since frame 1, last seen at
frame 200. -/
def tStat : TrackedObject :=
  { id := 0, class_name := "person", first_seen := 1, last_seen := 200
    position_history := [(0, 0)], bbox_history := [bb0]
    is_stationary := true, stationary_frames := 60 }

/-- A fast person track (one 100 px step), in view since frame 1, last
seen at frame 201. -/
def tFast : TrackedObject :=
  { id := 0, class_name := "person", first_seen := 1, last_seen := 201
    position_history := [(0, 0), (100, 0)], bbox_history := [bb0, bb0]
    is_stationary := false, stationary_frames := 0 }

/-- Analyzer at frame 200 holding the stationary track, no cooldowns. -/
def stateA : AnalyzerState :=
  { tracked_objects := [(0, tStat)], next_object_id := 1, frame_count := 200
    alert_cooldown := [] }

/-- Analyzer at frame 201 holding the fast track, with the cooldown entry
written by the loitering alert of frame 200. -/
def stateB : AnalyzerState :=
  { tracked_objects := [(0, tFast)], next_object_id := 1, frame_count := 201
    alert_cooldown := [(0, 200)] }

/-- Same as `stateB` but with an empty cooldown map. -/
def stateBfree : AnalyzerState :=
  { tracked_objects := [(0, tFast)], next_object_id := 1, frame_count := 201
    alert_cooldown := [] }

/-- Tracker holding one freshly created person track at the origin. -/
def s0C2 : AnalyzerState :=
  { tracked_objects := [(0, TrackedObject.init 0 dP 1)], next_object_id := 1
    frame_count := 1, alert_cooldown := [] }

/-- A sequence of classification passes at frames `f+1, f+2, ...`, one
per given track map, threading the cooldown map exactly as the
surveillance loop does. -/
noncomputable def detectSeq (cd : List (ℕ × ℕ)) (f : ℕ) :
    List (List (ℕ × TrackedObject)) → List (List SuspiciousEvent)
  | [] => []
  | m :: ms =>
    let r := detect_suspicious_behaviors
      { tracked_objects := m, next_object_id := 0, frame_count := f + 1
        alert_cooldown := cd }
    r.1 :: detectSeq r.2 (f + 1) ms

/-- A person detection at the given center (bbox centered there). -/
def mkDet (c : ℤ × ℤ) : Detection :=
  { class_name := "person", center := c, bbox := (c.1 - 1, c.2 - 1, c.1 + 1, c.2 + 1) }

/-- A tracker state with two person tracks, one at the origin and one at
(50, 0), both recently seen at the current frame 5. -/
def sW : AnalyzerState :=
  { tracked_objects := [(0, TrackedObject.init 0 dP 1), (1, TrackedObject.init 1 (mkDet (50, 0)) 1)]
    next_object_id := 2, frame_count := 5, alert_cooldown := [] }

/-- Position history of the single track after `n` frames of the
one-detection-per-frame scenario (positions `p 1 .. p n`, capacity 30). -/
def histAt (p : ℕ → ℤ × ℤ) : ℕ → List (ℤ × ℤ)
  | 0 => []
  | n + 1 => push30 (histAt p n) (p (n + 1))

/-- Bbox history of the single track in the same scenario. -/
def bbAt (p : ℕ → ℤ × ℤ) : ℕ → List (ℤ × ℤ × ℤ × ℤ)
  | 0 => []
  | n + 1 => push30 (bbAt p n) ((mkDet (p (n + 1))).bbox)

/-- Closed form of the single track after `n` frames of the small-step
one-detection-per-frame scenario. -/
def trackAt (p : ℕ → ℤ × ℤ) (n : ℕ) : TrackedObject :=
  { id := 0, class_name := "person", first_seen := 1, last_seen := n
    position_history := histAt p n, bbox_history := bbAt p n
    is_stationary := decide (32 ≤ n), stationary_frames := n - 1 }

/-- Cooldown model for the single-track scenario: the last alert frame
after frame `n`, when the qualification pattern is `q`. -/
def fireAt (q : ℕ → Bool) : ℕ → Option ℕ
  | 0 => none
  | n + 1 =>
    match fireAt q n with
    | none => if q (n + 1) then some (n + 1) else none
    | some m => if m + 90 ≤ n + 1 ∧ q (n + 1) then some (n + 1) else some m

/-- Cooldown map of the single-track scenario from its model value. -/
def cdList : Option ℕ → List (ℕ × ℕ)
  | none => []
  | some m => [(0, m)]

/-- The cooldown gate for track 0 is open at frame `n` in the model. -/
def cdOKB (q : ℕ → Bool) (n : ℕ) : Bool :=
  match fireAt q (n - 1) with
  | none => true
  | some m => decide (m + 90 ≤ n)

/-- Full qualification pattern of the single-track scenario: erratic per
`q`, loitering from frame 151 on, never fast. -/
def qfull (q : ℕ → Bool) (n : ℕ) : Bool :=
  q n || decide (151 ≤ n)

/-- Model analyzer state after `n` frames of the single-track scenario. -/
def modelState (p : ℕ → ℤ × ℤ) (q : ℕ → Bool) (n : ℕ) : AnalyzerState :=
  { tracked_objects := [(0, trackAt p n)], next_object_id := 1
    frame_count := n, alert_cooldown := cdList (fireAt (qfull q) n) }

/-- Model event list at frame `n` of the single-track scenario. -/
noncomputable def modelEvents (p : ℕ → ℤ × ℤ) (q : ℕ → Bool) (n : ℕ) :
    List SuspiciousEvent :=
  (if 151 ≤ n ∧ cdOKB (qfull q) n = true then [loiterEvent 0 (trackAt p n)] else []) ++
  (if q n = true ∧ cdOKB (qfull q) n = true then [erraticEvent 0 (trackAt p n)] else [])

/-- Analyzer state of the real pipeline after `n` frames, one detection
per frame at `p 1, ..., p n`. -/
noncomputable def runState (p : ℕ → ℤ × ℤ) : ℕ → AnalyzerState
  | 0 => AnalyzerState.start
  | n + 1 => (analyzerStep (runState p n) [mkDet (p (n + 1))]).1

/-- Events the real pipeline emits at frame `n` of the same scenario. -/
noncomputable def runEvents (p : ℕ → ℤ × ℤ) : ℕ → List SuspiciousEvent
  | 0 => []
  | n + 1 => (analyzerStep (runState p n) [mkDet (p (n + 1))]).2

/-- The all-frames-at-the-origin detection stream. -/
def pconst : ℕ → ℤ × ℤ := fun _ => (0, 0)

/-- A 3 px zig-zag detection stream: x alternates between 0 and 3. -/
def palt : ℕ → ℤ × ℤ := fun n => (if n % 2 = 0 then 0 else 3, 0)

/-- Erratic-qualification pattern of `palt`: from frame 10 on. -/
def qalt : ℕ → Bool := fun n => decide (10 ≤ n)

/-- Erratic-qualification pattern of `pconst`: never. -/
def qnone : ℕ → Bool := fun _ => false

/-- Vertices of a unit-step zig-zag turning ±120 degrees at every
vertex: steps alternate between (2,0) and (-1,√3) (both of length 2,
at 120 degrees of each other). -/
noncomputable def zigPt : ℕ → ℝ × ℝ
  | 0 => (0, 0)
  | n + 1 =>
    ((zigPt n).1 + (if n % 2 = 0 then 2 else -1),
     (zigPt n).2 + (if n % 2 = 0 then 0 else Real.sqrt 3))

/-- The 15-position ±120-degree zig-zag. -/
noncomputable def zigList : List (ℝ × ℝ) := (List.range 15).map zigPt

/-- A straight-line trajectory of 15 positions with unit steps. -/
noncomputable def linePts : List (ℝ × ℝ) :=
  (List.range 15).map fun n : ℕ => ((n : ℝ), (0 : ℝ))

/-! ## Bridge lemmas: the squared-distance comparisons used in the
embedding agree with the source's `math.sqrt`-based comparisons. -/

/-- Squared distances are nonnegative. -/
theorem dist2_nonneg (p q : ℤ × ℤ) : 0 ≤ dist2 p q :=
  add_nonneg (sq_nonneg _) (sq_nonneg _)

/-- Comparing the Euclidean distance with a positive constant is the
same as comparing the squared distance with its square. -/
theorem rdist_lt_const_iff (p q : ℤ × ℤ) (c : ℤ) (hc : 0 < c) :
    rdist p q < (c : ℝ) ↔ dist2 p q < c ^ 2 := by
  unfold rdist
  rw [Real.sqrt_lt' (by exact_mod_cast hc)]
  exact_mod_cast Iff.rfl

/-- Comparing two Euclidean distances is the same as comparing the
squared distances. -/
theorem rdist_lt_rdist_iff (a b c d : ℤ × ℤ) :
    rdist a b < rdist c d ↔ dist2 a b < dist2 c d := by
  unfold rdist
  rw [Real.sqrt_lt_sqrt_iff (by exact_mod_cast dist2_nonneg a b)]
  exact_mod_cast Iff.rfl

/-- The source's angle test (clamped inverse cosine compared with π/2)
holds exactly when both displacement vectors are nonzero and their dot
product is negative. -/
theorem dirChange_iff (p0 p1 p2 : ℝ × ℝ) :
    dirChange p0 p1 p2 ↔
      0 < (p1.1 - p0.1) ^ 2 + (p1.2 - p0.2) ^ 2 ∧
      0 < (p2.1 - p1.1) ^ 2 + (p2.2 - p1.2) ^ 2 ∧
      (p1.1 - p0.1) * (p2.1 - p1.1) + (p1.2 - p0.2) * (p2.2 - p1.2) < 0 := by
  have base : ∀ (A B d : ℝ), 0 < A → 0 < B →
      (Real.pi / 2 <
        Real.arccos (max (-1) (min 1 (d / (Real.sqrt A * Real.sqrt B)))) ↔ d < 0) := by
    intro A B d hA hB
    have hab : 0 < Real.sqrt A * Real.sqrt B :=
      mul_pos (Real.sqrt_pos.2 hA) (Real.sqrt_pos.2 hB)
    rw [← not_le, Real.arccos_le_pi_div_two, not_le]
    constructor
    · intro h
      rcases max_lt_iff.1 h with ⟨-, h2⟩
      rcases min_lt_iff.1 h2 with h3 | h3
      · linarith
      · rcases div_neg_iff.1 h3 with ⟨-, hb⟩ | ⟨hd, -⟩
        · linarith
        · exact hd
    · intro hd
      refine max_lt_iff.2 ⟨by norm_num, min_lt_iff.2 (Or.inr ?_)⟩
      exact div_neg_iff.2 (Or.inr ⟨hd, hab⟩)
  unfold dirChange
  constructor
  · rintro ⟨h1, h2, h3⟩
    exact ⟨h1, h2, (base _ _ _ h1 h2).1 h3⟩
  · rintro ⟨h1, h2, h3⟩
    exact ⟨h1, h2, (base _ _ _ h1 h2).2 h3⟩

/-! ## Counting lemmas for the direction-change loop. -/

/-- A qualifying triple adds one to the count. -/
theorem countDC_cons_pos {a b c : ℝ × ℝ} (r : List (ℝ × ℝ))
    (h : dirChange a b c) :
    countDC (a :: b :: c :: r) = countDC (b :: c :: r) + 1 := by
  simp [countDC, h]
  omega

/-- A non-qualifying triple leaves the count unchanged. -/
theorem countDC_cons_neg {a b c : ℝ × ℝ} (r : List (ℝ × ℝ))
    (h : ¬ dirChange a b c) :
    countDC (a :: b :: c :: r) = countDC (b :: c :: r) := by
  simp [countDC, h]

/-- If every consecutive triple of the list is a direction change, the
count is the number of triples, `length - 2`. -/
theorem countDC_of_forall (l : List (ℝ × ℝ))
    (h : ∀ i (hi : i + 2 < l.length), dirChange l[i] l[i + 1] l[i + 2]) :
    countDC l = l.length - 2 := by
  match l with
  | [] => simp [countDC]
  | [a] => simp [countDC]
  | [a, b] => simp [countDC]
  | a :: b :: c :: r =>
    have h0 : dirChange a b c := h 0 (by simp)
    rw [countDC_cons_pos r h0, countDC_of_forall (b :: c :: r) ?_]
    · simp only [List.length_cons]
      omega
    · intro i hi
      have := h (i + 1) (by simp at hi ⊢; omega)
      simpa using this

/-- If no consecutive triple of the list is a direction change, the
count is zero. -/
theorem countDC_of_forall_not (l : List (ℝ × ℝ))
    (h : ∀ i (hi : i + 2 < l.length), ¬ dirChange l[i] l[i + 1] l[i + 2]) :
    countDC l = 0 := by
  match l with
  | [] => simp [countDC]
  | [a] => simp [countDC]
  | [a, b] => simp [countDC]
  | a :: b :: c :: r =>
    have h0 : ¬ dirChange a b c := h 0 (by simp)
    rw [countDC_cons_neg r h0, countDC_of_forall_not (b :: c :: r) ?_]
    intro i hi
    have := h (i + 1) (by simp at hi ⊢; omega)
    simpa using this

/-! ## Small helper lemmas. -/

/-- Length of a last-k suffix. -/
theorem lastN_length (k : ℕ) (l : List α) : (lastN k l).length = min k l.length := by
  simp [lastN]
  omega

/-- Length of a capped append. -/
theorem push30_length (l : List α) (x : α) :
    (push30 l x).length = min (l.length + 1) 30 := by
  simp [push30, lastN_length]
  omega

/-- Distance from a point to itself is zero. -/
theorem rdist_self (p : ℤ × ℤ) : rdist p p = 0 := by
  simp [rdist, dist2]

/-- Distance between two points on a horizontal line. -/
theorem rdist_horiz (a b y : ℤ) : rdist (a, y) (b, y) = |(b : ℝ) - (a : ℝ)| := by
  unfold rdist dist2
  push_cast
  rw [show ((b : ℝ) - a) ^ 2 + ((y : ℝ) - y) ^ 2 = ((b : ℝ) - a) ^ 2 by ring]
  exact Real.sqrt_sq_eq_abs _

/-! ## C9: the track data invariant. -/

/-- C9: track creation establishes the invariant (equal-length parallel
histories, length between 1 and 30, `first_seen ≤ last_seen`), and a
per-frame update at any frame not in the track's past preserves it. -/
theorem track_invariant :
    (∀ (i : ℕ) (det : Detection) (f : ℕ), TrackInv (TrackedObject.init i det f)) ∧
    (∀ (t : TrackedObject) (det : Detection) (f : ℕ),
      TrackInv t → t.last_seen ≤ f → TrackInv (t.update det f)) := by
  constructor
  · intro i det f
    simp [TrackInv, TrackedObject.init]
  · rintro t det f ⟨h1, h2, h3, h4⟩ hf
    refine ⟨?_, ?_, ?_, ?_⟩ <;>
      simp only [TrackedObject.update, TrackInv, push30_length] <;> omega

/-- Witness for C9 at a concrete track and frame. -/
theorem track_invariant_witness :
    TrackInv (TrackedObject.init 0 dP 1) ∧
    (TrackedObject.init 0 dP 1).last_seen ≤ 2 ∧
    TrackInv ((TrackedObject.init 0 dP 1).update dB 2) :=
  ⟨track_invariant.1 0 dP 1, by decide,
    track_invariant.2 (TrackedObject.init 0 dP 1) dB 2 (track_invariant.1 0 dP 1) (by decide)⟩

/-! ## C5: the speed statistic. -/

/-- C5 (counterexample): on an 11-position history whose first step is
90 px and whose later steps are 0 px, the source speed is 0 (it averages
the 9 steps among the last 10 positions), while the spec's sentence
(average over the last min(10, history length) = 10 consecutive position
pairs) gives 9. -/
theorem speed_pairs_counterexample :
    TrackedObject.get_speed cexSpeedTrack = 0 ∧ specSpeedPairs cexSpeedTrack = 9 := by
  constructor
  · show (if _ then _ else _) = _
    norm_num [TrackedObject.get_speed, cexSpeedTrack, lastN, pathLen, rdist_self]
  · show (if _ then _ else _) = _
    norm_num [specSpeedPairs, cexSpeedTrack, pairDists, lastN, rdist_self]
    rw [show (0 : ℤ × ℤ) = ((0 : ℤ), (0 : ℤ)) from rfl, rdist_horiz]
    norm_num

/-- C5 (amended): the speed statistic averages the consecutive steps of
the last min(10, history length) stored positions — that is,
min(10, history length) − 1 position pairs — and is 0 with fewer than
2 positions. -/
theorem get_speed_last_positions (t : TrackedObject) :
    t.get_speed =
      if t.position_history.length < 2 then 0
      else pathLen (lastN (min 10 t.position_history.length) t.position_history) /
        ((min 10 t.position_history.length - 1 : ℕ) : ℝ) := by
  unfold TrackedObject.get_speed
  by_cases h : t.position_history.length < 2
  · simp [h]
  · have he : lastN 10 t.position_history =
        lastN (min 10 t.position_history.length) t.position_history := by
      unfold lastN
      congr 1
      omega
    simp only [h, if_false, ← he, lastN_length]

/-! ## C4: the eviction boundary. -/

/-- Frame counter is untouched by per-detection processing. -/
theorem processDetection_frame (s : AnalyzerState) (det : Detection) :
    (processDetection s det).frame_count = s.frame_count := by
  unfold processDetection
  split <;> rfl

/-- Frame counter is untouched by the whole detection fold. -/
theorem foldl_processDetection_frame (dets : List Detection) (s : AnalyzerState) :
    (dets.foldl processDetection s).frame_count = s.frame_count := by
  induction dets generalizing s with
  | nil => rfl
  | cons d r ih => rw [List.foldl_cons, ih, processDetection_frame]

/-- The frame counter after `update_tracks` is the incoming frame. -/
theorem update_tracks_frame (s : AnalyzerState) (dets : List Detection) :
    (update_tracks s dets).frame_count = s.frame_count + 1 := by
  unfold update_tracks
  exact foldl_processDetection_frame dets _

/-- C4: after processing the detections of a frame, a track survives iff
it is in the pre-eviction state with `frame_count − last_seen ≤ 30`;
tracks with a gap of 31 or more are exactly the ones removed. -/
theorem eviction_boundary (s : AnalyzerState) (dets : List Detection)
    (i : ℕ) (t : TrackedObject) :
    (i, t) ∈ (update_tracks s dets).tracked_objects ↔
      (i, t) ∈ (preEvict s dets).tracked_objects ∧
        (update_tracks s dets).frame_count - t.last_seen ≤ 30 := by
  have hf := update_tracks_frame s dets
  have hf2 := foldl_processDetection_frame dets
    { s with frame_count := s.frame_count + 1 }
  unfold update_tracks preEvict
  simp only [List.mem_filter, decide_eq_true_eq]
  constructor
  · rintro ⟨h1, h2⟩
    exact ⟨h1, by simp at hf2 ⊢; omega⟩
  · rintro ⟨h1, h2⟩
    refine ⟨h1, ?_⟩
    unfold update_tracks at hf
    simp at hf hf2
    omega

/-- Witness for C4: with the incoming frame at 32, a track last seen at
frame 1 (gap 31) is evicted while one last seen at frame 2 (gap 30)
survives. -/
theorem eviction_boundary_witness :
    (0, TrackedObject.init 0 dP 1) ∉
      (update_tracks
        { tracked_objects := [(0, TrackedObject.init 0 dP 1), (1, TrackedObject.init 1 dB 2)]
          next_object_id := 2, frame_count := 31, alert_cooldown := [] }
        []).tracked_objects ∧
    (1, TrackedObject.init 1 dB 2) ∈
      (update_tracks
        { tracked_objects := [(0, TrackedObject.init 0 dP 1), (1, TrackedObject.init 1 dB 2)]
          next_object_id := 2, frame_count := 31, alert_cooldown := [] }
        []).tracked_objects :=
  ⟨fun h => absurd ((eviction_boundary _ _ _ _).1 h).2 (by decide),
    (eviction_boundary _ _ _ _).2 ⟨by decide, by decide⟩⟩

/-! ## C8: malformed bounding boxes. -/

/-- C8 (counterexample): a frame containing a well-formed detection and
a detection with a malformed bbox (x1 = 50 ≥ x2 = 40) is processed
without any rejection: the malformed detection creates track 1 exactly
as a well-formed one would. -/
theorem malformed_bbox_counterexample :
    (update_tracks AnalyzerState.start [dP, dBad]).tracked_objects.length = 2 ∧
    alLookup (update_tracks AnalyzerState.start [dP, dBad]).tracked_objects 1 =
      some (TrackedObject.init 1 dBad 1) := by
  constructor <;> decide

/-- The candidate scan never reads the detection's bounding box. -/
theorem matchGo_bbox (frame : ℕ) (det : Detection) (b : ℤ × ℤ × ℤ × ℤ)
    (l : List (ℕ × TrackedObject)) (acc : Option ℕ × ℤ) :
    matchGo frame { det with bbox := b } l acc = matchGo frame det l acc := by
  induction l generalizing acc with
  | nil => rfl
  | cons e r ih =>
    obtain ⟨i, t⟩ := e
    obtain ⟨bid, bd⟩ := acc
    simp only [matchGo]
    split <;> [skip; split <;> [skip; split]] <;> simp [ih]

/-- C8 (amended): the tracker performs no bbox validation at all — the
matcher ignores the bbox, and the bbox value of a detection influences
nothing but the stored bbox history; the frame is never aborted. -/
theorem bbox_not_validated (s : AnalyzerState) (det : Detection)
    (b : ℤ × ℤ × ℤ × ℤ) :
    match_detection_to_tracked s { det with bbox := b } =
      match_detection_to_tracked s det ∧
    stripState (processDetection s { det with bbox := b }) =
      stripState (processDetection s det) := by
  have hm : match_detection_to_tracked s { det with bbox := b } =
      match_detection_to_tracked s det := by
    unfold match_detection_to_tracked
    rw [matchGo_bbox]
  refine ⟨hm, ?_⟩
  cases hmatch : match_detection_to_tracked s det with
  | some i =>
    unfold processDetection
    rw [hm, hmatch]
    simp only [stripState, List.map_map]
    congr 1
    refine List.map_congr_left fun e _ => ?_
    simp only [Function.comp_apply]
    by_cases h : e.1 = i
    · rw [if_pos h, if_pos h]
      rfl
    · rw [if_neg h, if_neg h]
  | none =>
    unfold processDetection
    rw [hm, hmatch]
    simp only [stripState, List.map_append, List.map_cons, List.map_nil]
    rfl

/-! ## C2: greedy matching does not exclude claimed tracks. -/

/-- Unfolding equation of the association-list lookup. -/
theorem alLookup_cons (k : ℕ) (v : α) (r : List (ℕ × α)) (j : ℕ) :
    alLookup ((k, v) :: r) j = if k = j then some v else alLookup r j := rfl

/-- Lookup through the update-map of `processDetection`: only key `i`
is affected. -/
theorem alLookup_map_update (l : List (ℕ × TrackedObject)) (i j : ℕ)
    (det : Detection) (fc : ℕ) :
    alLookup (l.map fun e => if e.1 = i then (e.1, e.2.update det fc) else e) j =
      if j = i then (alLookup l j).map (fun u => u.update det fc) else alLookup l j := by
  induction l with
  | nil => split <;> rfl
  | cons a r ih =>
    obtain ⟨k, t⟩ := a
    simp only [List.map_cons]
    by_cases hi : k = i
    · by_cases hk : k = j
      · rw [if_pos hi, alLookup_cons, if_pos hk,
          if_pos (show j = i by omega), alLookup_cons, if_pos hk]
        rfl
      · rw [if_pos hi]
        simp only [alLookup_cons, if_neg hk, ih,
          if_neg (show ¬ j = i by omega)]
    · by_cases hk : k = j
      · rw [if_neg hi, alLookup_cons, if_pos hk,
          if_neg (show ¬ j = i by omega), alLookup_cons, if_pos hk]
      · rw [if_neg hi]
        simp only [alLookup_cons, if_neg hk, ih]

/-- Unfolding of `processDetection` when the detection matches track `i`. -/
theorem processDetection_matched (s : AnalyzerState) (det : Detection) (i : ℕ)
    (h : match_detection_to_tracked s det = some i) :
    processDetection s det =
      { s with tracked_objects := s.tracked_objects.map (fun e => if e.1 = i then (e.1, e.2.update det s.frame_count) else e) } := by
  unfold processDetection
  rw [h]

/-- Unfolding of `processDetection` when no track matches. -/
theorem processDetection_unmatched (s : AnalyzerState) (det : Detection)
    (h : match_detection_to_tracked s det = none) :
    processDetection s det =
      { s with
        tracked_objects := s.tracked_objects ++
          [(s.next_object_id, TrackedObject.init s.next_object_id det s.frame_count)]
        next_object_id := s.next_object_id + 1 } := by
  unfold processDetection
  rw [h]

/-- C2 (counterexample): with one person track at the origin and the
frame's detections at (0,0) and (1,0), the second detection matches the
track already claimed (and updated) by the first: the track is updated
twice in one frame (history grows by two entries) and no new track is
created. -/
theorem no_exclusion_counterexample :
    (update_tracks s0C2 [dP, dB]).tracked_objects.length = 1 ∧
    (update_tracks s0C2 [dP, dB]).next_object_id = 1 ∧
    alLookup (update_tracks s0C2 [dP, dB]).tracked_objects 0 =
      some { id := 0, class_name := "person", first_seen := 1, last_seen := 2
             position_history := [(0, 0), (0, 0), (1, 0)]
             bbox_history := [bb0, bb0, bb0]
             is_stationary := false, stationary_frames := 2 } := by
  refine ⟨?_, ?_, ?_⟩ <;> decide

/-- C2 (amended): each detection is matched against the tracker state as
of its own processing, with tracks claimed by earlier detections of the
same frame still candidates: when two detections of one frame both match
track `i`, that track is updated twice in that frame and no new track is
created for the second detection. -/
theorem tracker_no_exclusion (s : AnalyzerState) (d1 d2 : Detection)
    (i : ℕ) (t : TrackedObject)
    (h1 : match_detection_to_tracked { s with frame_count := s.frame_count + 1 } d1 = some i)
    (h2 : match_detection_to_tracked
      (processDetection { s with frame_count := s.frame_count + 1 } d1) d2 = some i)
    (ht : alLookup s.tracked_objects i = some t) :
    alLookup (preEvict s [d1, d2]).tracked_objects i =
      some ((t.update d1 (s.frame_count + 1)).update d2 (s.frame_count + 1)) := by
  unfold preEvict
  simp only [List.foldl_cons, List.foldl_nil]
  rw [processDetection_matched _ _ _ h2, processDetection_matched _ _ _ h1]
  dsimp only
  rw [alLookup_map_update, if_pos rfl, alLookup_map_update, if_pos rfl, ht]
  rfl

/-- Witness for C2's amended theorem at the counterexample scenario. -/
theorem tracker_no_exclusion_witness :
    alLookup (preEvict s0C2 [dP, dB]).tracked_objects 0 =
      some (((TrackedObject.init 0 dP 1).update dP (s0C2.frame_count + 1)).update dB
        (s0C2.frame_count + 1)) :=
  tracker_no_exclusion s0C2 dP dB 0 (TrackedObject.init 0 dP 1)
    (by decide) (by decide) (by decide)

/-! ## C3: the matcher characterization. -/

/-- Distances compared with `≤` agree between `rdist` and `dist2`. -/
theorem rdist_le_rdist_iff (a b c d : ℤ × ℤ) :
    rdist a b ≤ rdist c d ↔ dist2 a b ≤ dist2 c d := by
  rw [← not_lt, ← not_lt]
  exact not_congr (rdist_lt_rdist_iff c d a b)

/-- The best squared distance never increases along the candidate scan. -/
theorem matchGo_mono (frame : ℕ) (det : Detection) :
    ∀ (l : List (ℕ × TrackedObject)) (acc : Option ℕ × ℤ),
      (matchGo frame det l acc).2 ≤ acc.2 := by
  intro l
  induction l with
  | nil => intro acc; exact le_refl _
  | cons e r ih =>
    intro acc
    obtain ⟨k, v⟩ := e
    obtain ⟨bid, bd⟩ := acc
    simp only [matchGo]
    split
    · exact ih (bid, bd)
    · split
      · exact ih (bid, bd)
      · split
        · next h => exact le_trans (ih _) (le_of_lt h)
        · exact ih (bid, bd)

/-- The final best squared distance is below the squared distance of
every class/recency-eligible candidate in the list. -/
theorem matchGo_min (frame : ℕ) (det : Detection) :
    ∀ (l : List (ℕ × TrackedObject)) (acc : Option ℕ × ℤ) (j : ℕ) (u : TrackedObject),
      (j, u) ∈ l → matchEligible frame det u →
      (matchGo frame det l acc).2 ≤ dist2 (lastPos u) det.center := by
  intro l
  induction l with
  | nil =>
    intro acc j u h _
    exact absurd h (List.not_mem_nil _)
  | cons e r ih =>
    intro acc j u hmem helig
    obtain ⟨k, v⟩ := e
    obtain ⟨bid, bd⟩ := acc
    by_cases hcls : v.class_name ≠ det.class_name
    · simp only [matchGo, if_pos hcls]
      rcases List.mem_cons.1 hmem with hhead | htail
      · rw [Prod.mk.injEq] at hhead
        obtain ⟨rfl, rfl⟩ := hhead
        exact absurd helig.1 hcls
      · exact ih _ j u htail helig
    · by_cases hrec : v.last_seen + 10 < frame
      · simp only [matchGo, if_neg hcls, if_pos hrec]
        rcases List.mem_cons.1 hmem with hhead | htail
        · rw [Prod.mk.injEq] at hhead
          obtain ⟨rfl, rfl⟩ := hhead
          exact absurd helig.2 (by omega)
        · exact ih _ j u htail helig
      · by_cases hd : dist2 (lastPos v) det.center < bd
        · simp only [matchGo, if_neg hcls, if_neg hrec, if_pos hd]
          rcases List.mem_cons.1 hmem with hhead | htail
          · rw [Prod.mk.injEq] at hhead
            obtain ⟨rfl, rfl⟩ := hhead
            exact matchGo_mono frame det r _
          · exact ih _ j u htail helig
        · simp only [matchGo, if_neg hcls, if_neg hrec, if_neg hd]
          rcases List.mem_cons.1 hmem with hhead | htail
          · rw [Prod.mk.injEq] at hhead
            obtain ⟨rfl, rfl⟩ := hhead
            exact le_trans (matchGo_mono frame det r _) (by omega)
          · exact ih _ j u htail helig

/-- If the scan ends with no best id, it started with none and the best
distance is unchanged. -/
theorem matchGo_none (frame : ℕ) (det : Detection) :
    ∀ (l : List (ℕ × TrackedObject)) (acc : Option ℕ × ℤ),
      (matchGo frame det l acc).1 = none →
      acc.1 = none ∧ (matchGo frame det l acc).2 = acc.2 := by
  intro l
  induction l with
  | nil => intro acc h; exact ⟨h, rfl⟩
  | cons e r ih =>
    intro acc h
    obtain ⟨k, v⟩ := e
    obtain ⟨bid, bd⟩ := acc
    by_cases hcls : v.class_name ≠ det.class_name
    · simp only [matchGo, if_pos hcls] at h ⊢
      exact ih _ h
    · by_cases hrec : v.last_seen + 10 < frame
      · simp only [matchGo, if_neg hcls, if_pos hrec] at h ⊢
        exact ih _ h
      · by_cases hd : dist2 (lastPos v) det.center < bd
        · simp only [matchGo, if_neg hcls, if_neg hrec, if_pos hd] at h ⊢
          exact absurd (ih _ h).1 (by simp)
        · simp only [matchGo, if_neg hcls, if_neg hrec, if_neg hd] at h ⊢
          exact ih _ h

/-- If the scan ends at some id, either the accumulator already held it
untouched, or the id names an eligible candidate of the list whose
squared distance is the final (strictly improved) best value. -/
theorem matchGo_found (frame : ℕ) (det : Detection) :
    ∀ (l : List (ℕ × TrackedObject)) (acc : Option ℕ × ℤ) (j : ℕ),
      (matchGo frame det l acc).1 = some j →
      (acc.1 = some j ∧ (matchGo frame det l acc).2 = acc.2) ∨
      (∃ u, (j, u) ∈ l ∧ matchEligible frame det u ∧
        (matchGo frame det l acc).2 = dist2 (lastPos u) det.center ∧
        (matchGo frame det l acc).2 < acc.2) := by
  intro l
  induction l with
  | nil => intro acc j h; exact Or.inl ⟨h, rfl⟩
  | cons e r ih =>
    intro acc j h
    obtain ⟨k, v⟩ := e
    obtain ⟨bid, bd⟩ := acc
    by_cases hcls : v.class_name ≠ det.class_name
    · simp only [matchGo, if_pos hcls] at h ⊢
      rcases ih _ j h with h1 | ⟨u, hm, he, hv, hlt⟩
      · exact Or.inl h1
      · exact Or.inr ⟨u, List.mem_cons_of_mem _ hm, he, hv, hlt⟩
    · by_cases hrec : v.last_seen + 10 < frame
      · simp only [matchGo, if_neg hcls, if_pos hrec] at h ⊢
        rcases ih _ j h with h1 | ⟨u, hm, he, hv, hlt⟩
        · exact Or.inl h1
        · exact Or.inr ⟨u, List.mem_cons_of_mem _ hm, he, hv, hlt⟩
      · by_cases hd : dist2 (lastPos v) det.center < bd
        · simp only [matchGo, if_neg hcls, if_neg hrec, if_pos hd] at h ⊢
          have helig : matchEligible frame det v := ⟨not_not.1 hcls, by omega⟩
          rcases ih _ j h with ⟨h1, h2⟩ | ⟨u, hm, he, hv, hlt⟩
          · have hj : k = j := by simpa using h1
            subst hj
            refine Or.inr ⟨v, List.mem_cons_self _ _, helig, h2, ?_⟩
            rw [h2]
            exact hd
          · exact Or.inr ⟨u, List.mem_cons_of_mem _ hm, he, hv, lt_trans hlt hd⟩
        · simp only [matchGo, if_neg hcls, if_neg hrec, if_neg hd] at h ⊢
          rcases ih _ j h with h1 | ⟨u, hm, he, hv, hlt⟩
          · exact Or.inl h1
          · exact Or.inr ⟨u, List.mem_cons_of_mem _ hm, he, hv, hlt⟩

/-- An eligible candidate strictly closer than the accumulator bound
guarantees the scan does not end with none. -/
theorem matchGo_some_of_elig (frame : ℕ) (det : Detection) :
    ∀ (l : List (ℕ × TrackedObject)) (acc : Option ℕ × ℤ) (j : ℕ) (u : TrackedObject),
      (j, u) ∈ l → matchEligible frame det u →
      dist2 (lastPos u) det.center < acc.2 →
      (matchGo frame det l acc).1 ≠ none := by
  intro l
  induction l with
  | nil =>
    intro acc j u h
    exact absurd h (List.not_mem_nil _)
  | cons e r ih =>
    intro acc j u hmem helig hlt h
    obtain ⟨k, v⟩ := e
    obtain ⟨bid, bd⟩ := acc
    rcases List.mem_cons.1 hmem with hhead | htail
    · rw [Prod.mk.injEq] at hhead
      obtain ⟨rfl, rfl⟩ := hhead
      have hcls : ¬ u.class_name ≠ det.class_name := not_not.2 helig.1
      have hrec : ¬ u.last_seen + 10 < frame := by
        have := helig.2
        omega
      simp only [matchGo, if_neg hcls, if_neg hrec] at h
      by_cases hd : dist2 (lastPos u) det.center < bd
      · rw [if_pos hd] at h
        exact absurd (matchGo_none frame det r _ h).1 (by simp)
      · exact absurd hlt hd
    · by_cases hcls : v.class_name ≠ det.class_name
      · simp only [matchGo, if_pos hcls] at h
        exact ih _ j u htail helig hlt h
      · by_cases hrec : v.last_seen + 10 < frame
        · simp only [matchGo, if_neg hcls, if_pos hrec] at h
          exact ih _ j u htail helig hlt h
        · by_cases hd : dist2 (lastPos v) det.center < bd
          · simp only [matchGo, if_neg hcls, if_neg hrec, if_pos hd] at h
            exact absurd (matchGo_none frame det r _ h).1 (by simp)
          · simp only [matchGo, if_neg hcls, if_neg hrec, if_neg hd] at h
            exact ih _ j u htail helig hlt h

/-- Radius comparisons in ℝ and their squared ℤ forms at 100 px. -/
theorem rdist_lt_100_iff (a b : ℤ × ℤ) :
    rdist a b < 100 ↔ dist2 a b < 10000 := by
  rw [show (100 : ℝ) = ((100 : ℤ) : ℝ) by norm_num,
    rdist_lt_const_iff a b 100 (by norm_num)]
  norm_num

/-- C3: a returned match names a stored track of the detection's class,
seen within the last 10 frames, whose distance to the detection center
is strictly below 100 px and minimal among all class/recency-eligible
tracks; and no match is returned exactly when no track satisfies all
three conditions. -/
theorem match_characterization (s : AnalyzerState) (det : Detection) :
    (∀ i, match_detection_to_tracked s det = some i →
      ∃ t, (i, t) ∈ s.tracked_objects ∧
        t.class_name = det.class_name ∧
        s.frame_count - t.last_seen ≤ 10 ∧
        rdist (lastPos t) det.center < 100 ∧
        ∀ j u, (j, u) ∈ s.tracked_objects → u.class_name = det.class_name →
          s.frame_count - u.last_seen ≤ 10 →
          rdist (lastPos t) det.center ≤ rdist (lastPos u) det.center) ∧
    (match_detection_to_tracked s det = none ↔
      ∀ j u, (j, u) ∈ s.tracked_objects →
        ¬(u.class_name = det.class_name ∧ s.frame_count - u.last_seen ≤ 10 ∧
          rdist (lastPos u) det.center < 100)) := by
  constructor
  · intro i h
    unfold match_detection_to_tracked at h
    rcases matchGo_found s.frame_count det s.tracked_objects (none, 10000) i h with
      ⟨h1, -⟩ | ⟨u, hm, he, hv, hlt⟩
    · exact absurd h1 (by simp)
    · refine ⟨u, hm, he.1, by have := he.2; omega, ?_, ?_⟩
      · rw [rdist_lt_100_iff]
        have hd : dist2 (lastPos u) det.center < 10000 := by
          rw [← hv]
          exact hlt
        exact hd
      · intro j u' hm' hc' hr'
        rw [rdist_le_rdist_iff, ← hv]
        exact matchGo_min s.frame_count det s.tracked_objects (none, 10000) j u' hm'
          ⟨hc', by omega⟩
  · constructor
    · intro h j u hm hco
      obtain ⟨hc, hr, hd⟩ := hco
      unfold match_detection_to_tracked at h
      rw [rdist_lt_100_iff] at hd
      exact matchGo_some_of_elig s.frame_count det s.tracked_objects (none, 10000) j u
        hm ⟨hc, by omega⟩ hd h
    · intro h
      unfold match_detection_to_tracked
      cases hr : (matchGo s.frame_count det s.tracked_objects (none, 10000)).1 with
      | none => rfl
      | some i =>
        exfalso
        rcases matchGo_found s.frame_count det s.tracked_objects (none, 10000) i hr with
          ⟨h1, -⟩ | ⟨u, hm, he, hv, hlt⟩
        · exact absurd h1 (by simp)
        · refine h i u hm ⟨he.1, by have := he.2; omega, ?_⟩
          rw [rdist_lt_100_iff, ← hv]
          exact hlt

/-- Witness for C3: in `sW`, the detection at (1, 0) matches track 0
(distance 1) rather than track 1 (distance 49), and the matched track
satisfies all eligibility conditions and minimality. -/
theorem match_characterization_witness :
    match_detection_to_tracked sW dB = some 0 ∧
    ∃ t, (0, t) ∈ sW.tracked_objects ∧ t.class_name = dB.class_name ∧
      sW.frame_count - t.last_seen ≤ 10 ∧ rdist (lastPos t) dB.center < 100 ∧
      ∀ j u, (j, u) ∈ sW.tracked_objects → u.class_name = dB.class_name →
        sW.frame_count - u.last_seen ≤ 10 →
        rdist (lastPos t) dB.center ≤ rdist (lastPos u) dB.center :=
  ⟨by decide, (match_characterization sW dB).1 0 (by decide)⟩

/-! ## Classification-pass lemmas (shared by the cooldown claims). -/

/-- Overwriting a key twice keeps only the last write. -/
theorem alSet_alSet (l : List (ℕ × α)) (k : ℕ) (v w : α) :
    alSet (alSet l k v) k w = alSet l k w := by
  induction l with
  | nil => simp [alSet]
  | cons a r ih =>
    obtain ⟨j, u⟩ := a
    by_cases hj : j = k
    · simp [alSet, hj]
    · simp [alSet, hj, ih]

/-- Writing one key leaves lookups of other keys unchanged. -/
theorem alLookup_alSet_ne (l : List (ℕ × α)) (k j : ℕ) (v : α) (h : k ≠ j) :
    alLookup (alSet l k v) j = alLookup l j := by
  induction l with
  | nil => simp [alSet, alLookup, h]
  | cons a r ih =>
    obtain ⟨m, u⟩ := a
    by_cases hm : m = k
    · simp [alSet, alLookup, hm, h]
    · simp only [alSet, if_neg hm, alLookup]
      split
      · rfl
      · exact ih

/-- Writing a key makes its lookup the written value. -/
theorem alLookup_alSet_self (l : List (ℕ × α)) (k : ℕ) (v : α) :
    alLookup (alSet l k v) k = some v := by
  induction l with
  | nil => simp [alSet, alLookup]
  | cons a r ih =>
    obtain ⟨m, u⟩ := a
    by_cases hm : m = k
    · simp [alSet, alLookup, hm]
    · simp [alSet, alLookup, hm, ih]

/-- The cooldown gate reads only the key's entry. -/
theorem cooldownActive_congr (cd1 cd2 : List (ℕ × ℕ)) (frame i : ℕ)
    (h : alLookup cd1 i = alLookup cd2 i) :
    cooldownActive cd1 frame i = cooldownActive cd2 frame i := by
  unfold cooldownActive
  rw [h]

/-- Events contributed by one object all carry that object's id. -/
theorem entryEvents_ids (i : ℕ) (t : TrackedObject) :
    ∀ ev ∈ entryEvents i t, ev.object_id = i := by
  intro ev hev
  unfold entryEvents at hev
  rcases List.mem_append.1 hev with hx | hx
  · rcases List.mem_append.1 hx with h | h
    · split at h
      · rw [List.mem_singleton.1 h]
        rfl
      · exact absurd h (List.not_mem_nil _)
    · split at h
      · rw [List.mem_singleton.1 h]
        rfl
      · exact absurd h (List.not_mem_nil _)
  · split at hx
    · rw [List.mem_singleton.1 hx]
      rfl
    · exact absurd hx (List.not_mem_nil _)

/-- The per-object contribution contains an event of kind `k` for `i`
exactly when kind `k` qualifies on the track. -/
theorem eventFor_entryEvents (i : ℕ) (t : TrackedObject) (k : String) :
    eventFor (entryEvents i t) i k ↔ kindQualifies k t := by
  constructor
  · rintro ⟨ev, hev, hid, hty⟩
    unfold entryEvents at hev
    unfold kindQualifies
    rcases List.mem_append.1 hev with hx | hx
    · rcases List.mem_append.1 hx with h | h
      · split at h
        · next hc =>
          rw [List.mem_singleton.1 h] at hty
          rw [show (fastEvent i t).behavior_type = "fast_movement" from rfl] at hty
          rw [← hty, if_pos rfl]
          exact hc
        · exact absurd h (List.not_mem_nil _)
      · split at h
        · next hc =>
          rw [List.mem_singleton.1 h] at hty
          rw [show (loiterEvent i t).behavior_type = "loitering" from rfl] at hty
          rw [← hty, if_neg (by decide), if_pos rfl]
          exact hc
        · exact absurd h (List.not_mem_nil _)
    · split at hx
      · next hc =>
        rw [List.mem_singleton.1 hx] at hty
        rw [show (erraticEvent i t).behavior_type = "erratic_movement" from rfl] at hty
        rw [← hty, if_neg (by decide), if_neg (by decide), if_pos rfl]
        exact hc
      · exact absurd hx (List.not_mem_nil _)
  · intro hq
    unfold kindQualifies at hq
    by_cases h1 : k = "fast_movement"
    · subst h1
      rw [if_pos rfl] at hq
      refine ⟨fastEvent i t, ?_, rfl, rfl⟩
      unfold entryEvents
      exact List.mem_append.2 (Or.inl (List.mem_append.2 (Or.inl
        (by rw [if_pos hq]; exact List.mem_singleton.2 rfl))))
    · by_cases h2 : k = "loitering"
      · subst h2
        rw [if_neg (by decide), if_pos rfl] at hq
        refine ⟨loiterEvent i t, ?_, rfl, rfl⟩
        unfold entryEvents
        exact List.mem_append.2 (Or.inl (List.mem_append.2 (Or.inr
          (by rw [if_pos hq]; exact List.mem_singleton.2 rfl))))
      · by_cases h3 : k = "erratic_movement"
        · subst h3
          rw [if_neg (by decide), if_neg (by decide), if_pos rfl] at hq
          refine ⟨erraticEvent i t, ?_, rfl, rfl⟩
          unfold entryEvents
          exact List.mem_append.2 (Or.inr (by rw [if_pos hq]; exact List.mem_singleton.2 rfl))
        · rw [if_neg h1, if_neg h2, if_neg h3] at hq
          exact absurd hq (by simp)

open Classical in
/-- One step of the classification fold, characterized: non-person or
cooldown-gated objects change nothing; otherwise all qualifying kinds
append their events and, if any fired, the object's cooldown entry is
stamped with the current frame. -/
theorem detectStep_eq (frame : ℕ) (acc : List SuspiciousEvent × List (ℕ × ℕ))
    (i : ℕ) (t : TrackedObject) :
    detectStep frame acc (i, t) =
      if t.class_name = "person" ∧ cooldownActive acc.2 frame i = false then
        (acc.1 ++ entryEvents i t,
          if entryFired t then alSet acc.2 i frame else acc.2)
      else acc := by
  unfold detectStep entryEvents entryFired
  dsimp only
  by_cases hp : t.class_name ≠ "person"
  · rw [if_pos hp, if_neg (fun h => hp h.1)]
  · rw [if_neg hp]
    by_cases hcd : cooldownActive acc.2 frame i = true
    · rw [if_pos hcd, if_neg (fun h => by rw [h.2] at hcd; exact absurd hcd (by simp))]
    · have hcd' : cooldownActive acc.2 frame i = false := by
        cases h : cooldownActive acc.2 frame i
        · rfl
        · exact absurd h hcd
      rw [if_neg hcd, if_pos (show t.class_name = "person" ∧
        cooldownActive acc.2 frame i = false from ⟨not_not.1 hp, hcd'⟩)]
      by_cases h1 : t.is_moving_fast ∧ 10 < t.time_in_view <;>
        by_cases h2 : t.is_stationary = true ∧ 150 < t.time_in_view <;>
          by_cases h3 : detect_erratic t <;>
            simp [h1, h2, h3, alSet_alSet]

open Classical in
/-- The classification fold appends its new events after the incoming
accumulator, and its cooldown result ignores the incoming events. -/
theorem detect_foldl_events (frame : ℕ) :
    ∀ (l : List (ℕ × TrackedObject)) (acc : List SuspiciousEvent × List (ℕ × ℕ)),
      (List.foldl (detectStep frame) acc l).1 =
        acc.1 ++ (List.foldl (detectStep frame) ([], acc.2) l).1 ∧
      (List.foldl (detectStep frame) acc l).2 =
        (List.foldl (detectStep frame) ([], acc.2) l).2 := by
  intro l
  induction l with
  | nil => intro acc; simp
  | cons e r ih =>
    intro acc
    obtain ⟨i, t⟩ := e
    rw [List.foldl_cons, List.foldl_cons, detectStep_eq, detectStep_eq]
    dsimp only
    by_cases hc : t.class_name = "person" ∧ cooldownActive acc.2 frame i = false
    · rw [if_pos hc, if_pos hc]
      have h1 := ih (acc.1 ++ entryEvents i t,
        if entryFired t then alSet acc.2 i frame else acc.2)
      have h2 := ih ([] ++ entryEvents i t,
        if entryFired t then alSet acc.2 i frame else acc.2)
      constructor
      · rw [h1.1, h2.1]
        simp
      · rw [h1.2, h2.2]
    · rw [if_neg hc, if_neg hc]
      exact ih acc

/-- The classification fold leaves cooldown entries of ids outside the
track list untouched. -/
theorem detect_foldl_cd_other (frame : ℕ) :
    ∀ (l : List (ℕ × TrackedObject)) (acc : List SuspiciousEvent × List (ℕ × ℕ)) (j : ℕ),
      j ∉ l.map Prod.fst →
      alLookup (List.foldl (detectStep frame) acc l).2 j = alLookup acc.2 j := by
  intro l
  induction l with
  | nil => intro acc j _; rfl
  | cons e r ih =>
    intro acc j hj
    obtain ⟨i, t⟩ := e
    simp only [List.map_cons, List.mem_cons, not_or] at hj
    rw [List.foldl_cons, detectStep_eq]
    by_cases hc : t.class_name = "person" ∧ cooldownActive acc.2 frame i = false
    · rw [if_pos hc]
      rw [ih _ j hj.2]
      by_cases hf : entryFired t
      · rw [if_pos hf]
        exact alLookup_alSet_ne acc.2 i j frame (fun h => hj.1 h.symm)
      · rw [if_neg hf]
    · rw [if_neg hc]
      exact ih _ j hj.2

/-- Events produced by the classification fold only name ids of the
track list. -/
theorem detect_foldl_ids (frame : ℕ) :
    ∀ (l : List (ℕ × TrackedObject)) (cd : List (ℕ × ℕ)) (j : ℕ),
      j ∉ l.map Prod.fst →
      ∀ ev ∈ (List.foldl (detectStep frame) ([], cd) l).1, ev.object_id ≠ j := by
  intro l
  induction l with
  | nil => intro cd j _ ev hev; exact absurd hev (List.not_mem_nil _)
  | cons e r ih =>
    intro cd j hj ev hev
    obtain ⟨i, t⟩ := e
    simp only [List.map_cons, List.mem_cons, not_or] at hj
    rw [List.foldl_cons, detectStep_eq] at hev
    dsimp only at hev
    by_cases hc : t.class_name = "person" ∧ cooldownActive cd frame i = false
    · rw [if_pos hc] at hev
      rw [(detect_foldl_events frame r _).1] at hev
      rcases List.mem_append.1 hev with hx | hx
      · have hy : ev ∈ entryEvents i t := by simpa using hx
        rw [entryEvents_ids i t ev hy]
        exact fun h => hj.1 h.symm
      · exact ih _ j hj.2 ev hx
    · rw [if_neg hc] at hev
      exact ih _ j hj.2 ev hev

/-- A successful lookup splits the association list at its first hit. -/
theorem alLookup_split (l : List (ℕ × TrackedObject)) (i : ℕ) (t : TrackedObject)
    (h : alLookup l i = some t) :
    ∃ l1 l2, l = l1 ++ (i, t) :: l2 ∧ i ∉ l1.map Prod.fst := by
  induction l with
  | nil => exact absurd h (by simp [alLookup])
  | cons e r ih =>
    obtain ⟨j, u⟩ := e
    by_cases hj : j = i
    · subst hj
      rw [alLookup_cons, if_pos rfl] at h
      obtain rfl : u = t := Option.some.inj h
      exact ⟨[], r, rfl, by simp⟩
    · rw [alLookup_cons, if_neg hj] at h
      obtain ⟨l1, l2, hl, hi⟩ := ih h
      refine ⟨(j, u) :: l1, l2, by rw [hl]; rfl, ?_⟩
      simp only [List.map_cons, List.mem_cons, not_or]
      exact ⟨fun hh => hj hh.symm, hi⟩

/-- C1 (amended): the cooldown gate of the classifier is keyed by the
track id alone and is checked once per track before the three behavior
tests: for a person track, an event of kind `k` is emitted exactly when
the track's single cooldown entry is absent or at least 90 frames old
and kind `k` qualifies — so all qualifying kinds of one frame fire
together, and any one emission silences every kind on that track. -/
theorem detect_cooldown_per_track (s : AnalyzerState)
    (hnd : (s.tracked_objects.map Prod.fst).Nodup)
    (i : ℕ) (t : TrackedObject) (ht : alLookup s.tracked_objects i = some t)
    (k : String) :
    eventFor (detect_suspicious_behaviors s).1 i k ↔
      (t.class_name = "person" ∧
        cooldownActive s.alert_cooldown s.frame_count i = false ∧
        kindQualifies k t) := by
  obtain ⟨l1, l2, hl, hi1⟩ := alLookup_split _ _ _ ht
  have hi2 : i ∉ l2.map Prod.fst := by
    rw [hl] at hnd
    simp only [List.map_append, List.map_cons] at hnd
    exact (List.nodup_cons.1 (List.nodup_append.1 hnd).2.1).1
  unfold detect_suspicious_behaviors
  rw [hl, List.foldl_append]
  have hcd1 : alLookup (List.foldl (detectStep s.frame_count)
      ([], s.alert_cooldown) l1).2 i = alLookup s.alert_cooldown i :=
    detect_foldl_cd_other s.frame_count l1 ([], s.alert_cooldown) i hi1
  have hgate : cooldownActive (List.foldl (detectStep s.frame_count)
      ([], s.alert_cooldown) l1).2 s.frame_count i =
      cooldownActive s.alert_cooldown s.frame_count i :=
    cooldownActive_congr _ _ _ _ hcd1
  rw [List.foldl_cons, detectStep_eq]
  by_cases hc : t.class_name = "person" ∧ cooldownActive (List.foldl
      (detectStep s.frame_count) ([], s.alert_cooldown) l1).2 s.frame_count i = false
  · rw [if_pos hc]
    rw [(detect_foldl_events s.frame_count l2 _).1]
    constructor
    · rintro ⟨ev, hev, hid, hty⟩
      dsimp only at hev
      rcases List.mem_append.1 hev with hx | hx
      · rcases List.mem_append.1 hx with hy | hy
        · exact absurd hid (detect_foldl_ids s.frame_count l1 s.alert_cooldown i hi1 ev hy)
        · refine ⟨hc.1, by rw [← hgate]; exact hc.2, ?_⟩
          exact (eventFor_entryEvents i t k).1 ⟨ev, hy, hid, hty⟩
      · exact absurd hid (detect_foldl_ids s.frame_count l2 _ i hi2 ev hx)
    · rintro ⟨hp, hcdok, hq⟩
      obtain ⟨ev, hev, hid, hty⟩ := (eventFor_entryEvents i t k).2 hq
      exact ⟨ev, by dsimp only; exact List.mem_append.2 (Or.inl
        (List.mem_append.2 (Or.inr hev))), hid, hty⟩
  · rw [if_neg hc]
    constructor
    · rintro ⟨ev, hev, hid, hty⟩
      rw [(detect_foldl_events s.frame_count l2 _).1] at hev
      rcases List.mem_append.1 hev with hx | hx
      · exact absurd hid (detect_foldl_ids s.frame_count l1 s.alert_cooldown i hi1 ev hx)
      · exact absurd hid (detect_foldl_ids s.frame_count l2 _ i hi2 ev hx)
    · rintro ⟨hp, hcdok, hq⟩
      exact absurd ⟨hp, by rw [hgate]; exact hcdok⟩ hc

/-! ## Concrete classification passes. -/

/-- Speed of the stationary track is 0 (one stored position). -/
theorem tStat_speed : tStat.get_speed = 0 := by
  simp [TrackedObject.get_speed, tStat]

/-- The stationary track is not moving fast. -/
theorem tStat_not_fast : ¬ (tStat.is_moving_fast ∧ 10 < tStat.time_in_view) := by
  rintro ⟨h, -⟩
  unfold TrackedObject.is_moving_fast at h
  rw [tStat_speed] at h
  norm_num at h

/-- The stationary track qualifies for loitering at frame 200. -/
theorem tStat_loiter : tStat.is_stationary = true ∧ 150 < tStat.time_in_view :=
  ⟨rfl, by decide⟩

/-- The stationary track is not erratic (one stored position). -/
theorem tStat_not_erratic : ¬ detect_erratic tStat := by
  rintro ⟨h, -⟩
  exact h (by simp [tStat])

/-- The stationary track contributes exactly one loitering event. -/
theorem entryEvents_tStat : entryEvents 0 tStat = [loiterEvent 0 tStat] := by
  unfold entryEvents
  rw [if_neg tStat_not_fast, if_pos tStat_loiter, if_neg tStat_not_erratic]
  simp

/-- Speed of the fast track is 100 px/frame. -/
theorem tFast_speed : tFast.get_speed = 100 := by
  norm_num [TrackedObject.get_speed, tFast, lastN, pathLen]
  rw [show (0 : ℤ × ℤ) = ((0 : ℤ), (0 : ℤ)) from rfl, rdist_horiz]
  norm_num

/-- The fast track qualifies for fast movement at frame 201. -/
theorem tFast_fast : tFast.is_moving_fast ∧ 10 < tFast.time_in_view := by
  constructor
  · unfold TrackedObject.is_moving_fast
    rw [tFast_speed]
    norm_num
  · decide

/-- The fast track does not qualify for loitering. -/
theorem tFast_not_loiter : ¬ (tFast.is_stationary = true ∧ 150 < tFast.time_in_view) := by
  rintro ⟨h, -⟩
  exact absurd h (by decide)

/-- The fast track is not erratic (two stored positions). -/
theorem tFast_not_erratic : ¬ detect_erratic tFast := by
  rintro ⟨h, -⟩
  exact h (by simp [tFast])

/-- The fast track contributes exactly one fast-movement event. -/
theorem entryEvents_tFast : entryEvents 0 tFast = [fastEvent 0 tFast] := by
  unfold entryEvents
  rw [if_pos tFast_fast, if_neg tFast_not_loiter, if_neg tFast_not_erratic]
  simp

/-- Classification pass over the stationary track at frame 200 with no
cooldowns: one loitering event, cooldown entry (0, 200) recorded. -/
theorem detect_tStat (n : ℕ) :
    detect_suspicious_behaviors
      { tracked_objects := [(0, tStat)], next_object_id := n, frame_count := 200
        alert_cooldown := [] } = ([loiterEvent 0 tStat], [(0, 200)]) := by
  show List.foldl (detectStep 200) ([], []) [(0, tStat)] = _
  rw [List.foldl_cons, List.foldl_nil, detectStep_eq]
  rw [if_pos (show tStat.class_name = "person" ∧
    cooldownActive ([] : List (ℕ × ℕ)) 200 0 = false from ⟨rfl, rfl⟩)]
  rw [entryEvents_tStat, if_pos (show entryFired tStat from Or.inr (Or.inl tStat_loiter))]
  rfl

/-- Classification pass over the fast track at frame 201 under the
cooldown entry written at frame 200: nothing fires. -/
theorem detect_tFast_cd (n : ℕ) :
    detect_suspicious_behaviors
      { tracked_objects := [(0, tFast)], next_object_id := n, frame_count := 201
        alert_cooldown := [(0, 200)] } = ([], [(0, 200)]) := by
  show List.foldl (detectStep 201) ([], [(0, 200)]) [(0, tFast)] = _
  rw [List.foldl_cons, List.foldl_nil, detectStep_eq]
  rw [if_neg (show ¬ (tFast.class_name = "person" ∧
    cooldownActive [(0, 200)] 201 0 = false) by decide)]

/-- Classification pass over the fast track at frame 201 with an empty
cooldown map: the fast-movement event fires. -/
theorem detect_tFast_free (n : ℕ) :
    detect_suspicious_behaviors
      { tracked_objects := [(0, tFast)], next_object_id := n, frame_count := 201
        alert_cooldown := [] } = ([fastEvent 0 tFast], [(0, 201)]) := by
  show List.foldl (detectStep 201) ([], []) [(0, tFast)] = _
  rw [List.foldl_cons, List.foldl_nil, detectStep_eq]
  rw [if_pos (show tFast.class_name = "person" ∧
    cooldownActive ([] : List (ℕ × ℕ)) 201 0 = false from ⟨rfl, rfl⟩)]
  rw [entryEvents_tFast, if_pos (show entryFired tFast from Or.inl tFast_fast)]
  rfl

/-- C1 (counterexample): at frame 200 the stationary person track emits
a loitering event, recording the single per-track cooldown entry
(0, 200); at frame 201 the same track qualifies for fast movement —
whose own (track, kind) key has no last-alert frame, so under the claim
it would fire — but the classifier emits nothing; with the cooldown map
empty it does fire.  Emitting one kind therefore changes whether a
different kind fires on the same track. -/
theorem cooldown_shared_key_counterexample :
    (detect_suspicious_behaviors stateA).1 = [loiterEvent 0 tStat] ∧
    (detect_suspicious_behaviors stateA).2 = stateB.alert_cooldown ∧
    (tFast.is_moving_fast ∧ 10 < tFast.time_in_view) ∧
    (detect_suspicious_behaviors stateB).1 = [] ∧
    (detect_suspicious_behaviors stateBfree).1 = [fastEvent 0 tFast] :=
  ⟨by show (detect_suspicious_behaviors ⟨[(0, tStat)], 1, 200, []⟩).1 = _
      rw [detect_tStat 1],
   by show (detect_suspicious_behaviors ⟨[(0, tStat)], 1, 200, []⟩).2 = _
      rw [detect_tStat 1]
      rfl,
   tFast_fast,
   by show (detect_suspicious_behaviors ⟨[(0, tFast)], 1, 201, [(0, 200)]⟩).1 = _
      rw [detect_tFast_cd 1],
   by show (detect_suspicious_behaviors ⟨[(0, tFast)], 1, 201, []⟩).1 = _
      rw [detect_tFast_free 1]⟩

/-- Witness for C1's amended theorem at the loitering scenario. -/
theorem detect_cooldown_per_track_witness :
    eventFor (detect_suspicious_behaviors stateA).1 0 "loitering" ↔
      (tStat.class_name = "person" ∧
        cooldownActive stateA.alert_cooldown stateA.frame_count 0 = false ∧
        kindQualifies "loitering" tStat) :=
  detect_cooldown_per_track stateA (by decide) 0 tStat (by decide) "loitering"

/-! ## C10: one alert silences all kinds for 89 frames. -/

/-- A nonempty per-object contribution means some kind fired. -/
theorem entryFired_of_mem (i : ℕ) (t : TrackedObject) (ev : SuspiciousEvent)
    (h : ev ∈ entryEvents i t) : entryFired t := by
  unfold entryEvents at h
  unfold entryFired
  rcases List.mem_append.1 h with hx | hx
  · rcases List.mem_append.1 hx with hy | hy
    · split at hy
      · next hc => exact Or.inl hc
      · exact absurd hy (List.not_mem_nil _)
    · split at hy
      · next hc => exact Or.inr (Or.inl hc)
      · exact absurd hy (List.not_mem_nil _)
  · split at hx
    · next hc => exact Or.inr (Or.inr hc)
    · exact absurd hx (List.not_mem_nil _)

open Classical in
/-- Under an active cooldown entry for `i`, the classification fold
emits nothing new for `i` and leaves the entry unchanged. -/
theorem detect_foldl_cdActive (frame i m : ℕ) (hm : frame < m + 90) :
    ∀ (l : List (ℕ × TrackedObject)) (acc : List SuspiciousEvent × List (ℕ × ℕ)),
      alLookup acc.2 i = some m →
      (∀ ev ∈ (List.foldl (detectStep frame) acc l).1, ev.object_id = i → ev ∈ acc.1) ∧
      alLookup (List.foldl (detectStep frame) acc l).2 i = some m := by
  intro l
  induction l with
  | nil => intro acc hacc; exact ⟨fun ev h _ => h, hacc⟩
  | cons e r ih =>
    intro acc hacc
    obtain ⟨j, t⟩ := e
    rw [List.foldl_cons, detectStep_eq]
    by_cases hc : t.class_name = "person" ∧ cooldownActive acc.2 frame j = false
    · by_cases hji : j = i
      · subst hji
        have : cooldownActive acc.2 frame j = true := by
          unfold cooldownActive
          rw [hacc]
          simp [hm]
        rw [hc.2] at this
        exact absurd this (by simp)
      · rw [if_pos hc]
        have hacc' : alLookup (if entryFired t then alSet acc.2 j frame else acc.2) i
            = some m := by
          by_cases hf : entryFired t
          · rw [if_pos hf, alLookup_alSet_ne acc.2 j i frame hji]
            exact hacc
          · rw [if_neg hf]
            exact hacc
        obtain ⟨hev, hcd⟩ := ih (acc.1 ++ entryEvents j t,
          if entryFired t then alSet acc.2 j frame else acc.2) hacc'
        refine ⟨?_, hcd⟩
        intro ev hin hid
        rcases List.mem_append.1 (hev ev hin hid) with hx | hx
        · exact hx
        · exact absurd hid (by rw [entryEvents_ids j t ev hx]; exact hji)
    · rw [if_neg hc]
      exact ih acc hacc

open Classical in
/-- If the classification fold emitted a new event for `i`, the final
cooldown entry of `i` is the current frame. -/
theorem detect_foldl_emit (frame i : ℕ) :
    ∀ (l : List (ℕ × TrackedObject)) (acc : List SuspiciousEvent × List (ℕ × ℕ)),
      (∃ ev ∈ (List.foldl (detectStep frame) acc l).1, ev.object_id = i ∧ ev ∉ acc.1) →
      alLookup (List.foldl (detectStep frame) acc l).2 i = some frame := by
  intro l
  induction l with
  | nil =>
    rintro acc ⟨ev, hev, -, hnot⟩
    exact absurd hev hnot
  | cons e r ih =>
    rintro acc ⟨ev, hev, hid, hnot⟩
    obtain ⟨j, t⟩ := e
    rw [List.foldl_cons, detectStep_eq] at hev ⊢
    by_cases hc : t.class_name = "person" ∧ cooldownActive acc.2 frame j = false
    · rw [if_pos hc] at hev ⊢
      by_cases hin : ev ∈ acc.1 ++ entryEvents j t
      · have hent : ev ∈ entryEvents j t := by
          rcases List.mem_append.1 hin with hx | hx
          · exact absurd hx hnot
          · exact hx
        have hji : j = i := by rw [← entryEvents_ids j t ev hent]; exact hid
        have hf : entryFired t := entryFired_of_mem j t ev hent
        subst hji
        have hacc' : alLookup (if entryFired t then alSet acc.2 j frame else acc.2) j
            = some frame := by
          rw [if_pos hf]
          exact alLookup_alSet_self acc.2 j frame
        exact (detect_foldl_cdActive frame j frame (by omega) r _ hacc').2
      · exact ih _ ⟨ev, hev, hid, hin⟩
    · rw [if_neg hc] at hev ⊢
      exact ih acc ⟨ev, hev, hid, hnot⟩

/-- Truncating the map sequence truncates the emitted sequence. -/
theorem detectSeq_take (n : ℕ) :
    ∀ (maps : List (List (ℕ × TrackedObject))) (cd : List (ℕ × ℕ)) (f : ℕ),
      detectSeq cd f (maps.take n) = (detectSeq cd f maps).take n := by
  induction n with
  | zero => intro maps cd f; simp [detectSeq]
  | succ n ih =>
    intro maps cd f
    cases maps with
    | nil => simp [detectSeq]
    | cons m0 ms =>
      rw [List.take_succ_cons]
      simp only [detectSeq]
      rw [ih ms, List.take_succ_cons]

/-- While a cooldown entry for `i` stays within its 90-frame window, a
sequence of classification passes emits nothing for `i`. -/
theorem detectSeq_noFire (i m : ℕ) :
    ∀ (maps : List (List (ℕ × TrackedObject))) (cd : List (ℕ × ℕ)) (f : ℕ),
      alLookup cd i = some m → f + maps.length ≤ m + 89 →
      ∀ evs ∈ detectSeq cd f maps, ∀ ev ∈ evs, ev.object_id ≠ i := by
  intro maps
  induction maps with
  | nil =>
    intro cd f _ _ evs hevs
    exact absurd hevs (List.not_mem_nil _)
  | cons m0 ms ih =>
    intro cd f hcd hlen evs hevs ev hev hid
    simp only [detectSeq, List.mem_cons] at hevs
    have hstep := detect_foldl_cdActive (f + 1) i m
      (by simp at hlen; omega) m0 ([], cd) hcd
    rcases hevs with rfl | htail
    · exact absurd (hstep.1 ev hev hid) (List.not_mem_nil _)
    · exact ih _ (f + 1) hstep.2 (by simp at hlen ⊢; omega) evs htail ev hev hid

/-- C10: in a run of one classification pass per frame, an event of any
kind emitted for a track at the pass of frame `f+k+1` silences every
behavior kind on that track for the next 89 passes: any pass fewer than
90 frames later emits no event at all for that track. -/
theorem alert_silences_all_kinds :
    ∀ (maps : List (List (ℕ × TrackedObject))) (cd : List (ℕ × ℕ)) (f k j : ℕ)
      (evsk evsj : List SuspiciousEvent) (i : ℕ) (evk : SuspiciousEvent),
      (detectSeq cd f maps)[k]? = some evsk → evk ∈ evsk → evk.object_id = i →
      (detectSeq cd f maps)[j]? = some evsj → k < j → j < k + 90 →
      ∀ ev ∈ evsj, ev.object_id ≠ i := by
  intro maps
  induction maps with
  | nil =>
    intro cd f k j evsk evsj i evk hk
    simp [detectSeq] at hk
  | cons m0 ms ih =>
    intro cd f k j evsk evsj i evk hk hevk hid hj hkj hjk ev hev
    cases j with
    | zero => omega
    | succ j' =>
      cases k with
      | zero =>
        simp only [detectSeq, List.getElem?_cons_zero, List.getElem?_cons_succ] at hk hj
        obtain rfl : (detect_suspicious_behaviors
            { tracked_objects := m0, next_object_id := 0, frame_count := f + 1
              alert_cooldown := cd }).1 = evsk := Option.some.inj hk
        have hcd : alLookup (detect_suspicious_behaviors
            { tracked_objects := m0, next_object_id := 0, frame_count := f + 1
              alert_cooldown := cd }).2 i = some (f + 1) :=
          detect_foldl_emit (f + 1) i m0 ([], cd)
            ⟨evk, hevk, hid, List.not_mem_nil _⟩
        have hjt : ((detectSeq (detect_suspicious_behaviors
            { tracked_objects := m0, next_object_id := 0, frame_count := f + 1
              alert_cooldown := cd }).2 (f + 1) ms).take (j' + 1))[j']? = some evsj := by
          rw [List.getElem?_take, if_pos (by omega), hj]
        have hmem : evsj ∈ detectSeq (detect_suspicious_behaviors
            { tracked_objects := m0, next_object_id := 0, frame_count := f + 1
              alert_cooldown := cd }).2 (f + 1) (ms.take (j' + 1)) := by
          rw [detectSeq_take]
          exact List.getElem?_mem hjt
        exact detectSeq_noFire i (f + 1) (ms.take (j' + 1)) _ (f + 1) hcd
          (by simp [List.length_take]; omega) evsj hmem ev hev
      | succ k' =>
        simp only [detectSeq, List.getElem?_cons_succ] at hk hj
        exact ih _ (f + 1) k' j' evsk evsj i evk hk hevk hid hj (by omega)
          (by omega) ev hev

/-- A two-frame run: loitering fires at the frame-200 pass, and the
frame-201 pass over the now fast-qualifying track emits nothing. -/
theorem detectSeq_demo :
    detectSeq [] 199 [[(0, tStat)], [(0, tFast)]] = [[loiterEvent 0 tStat], []] := by
  have e2 : detectSeq [(0, 200)] 200 [[(0, tFast)]] = [[]] := by
    show (let r := detect_suspicious_behaviors ⟨[(0, tFast)], 0, 201, [(0, 200)]⟩;
      r.1 :: detectSeq r.2 201 ([] : List (List (ℕ × TrackedObject)))) = _
    rw [detect_tFast_cd 0]
    rfl
  show (let r := detect_suspicious_behaviors ⟨[(0, tStat)], 0, 200, []⟩;
    r.1 :: detectSeq r.2 200 [[(0, tFast)]]) = _
  rw [detect_tStat 0]
  show [loiterEvent 0 tStat] :: detectSeq [(0, 200)] 200 [[(0, tFast)]] = _
  rw [e2]

/-- Witness for C10: loitering fires for track 0 at the frame-200 pass;
the frame-201 pass (over the now fast-qualifying track) emits no
fast-movement event for it. -/
theorem alert_silences_all_kinds_witness :
    ¬ eventFor (detectSeq [] 199 [[(0, tStat)], [(0, tFast)]]).getLast! 0
      "fast_movement" := by
  rintro ⟨ev, hev, hid, -⟩
  rw [detectSeq_demo] at hev
  have hev2 : ev ∈ ([] : List SuspiciousEvent) := hev
  exact (alert_silences_all_kinds [[(0, tStat)], [(0, tFast)]] [] 199 0 1
    [loiterEvent 0 tStat] [] 0 (loiterEvent 0 tStat)
    (by rw [detectSeq_demo]; rfl)
    (List.mem_singleton.2 rfl) rfl
    (by rw [detectSeq_demo]; rfl)
    (by omega) (by omega) ev hev2) hid

/-! ## C6: the erratic-movement test. -/

/-- First coordinates of the zig-zag steps. -/
theorem zigPt_step1 (n : ℕ) :
    (zigPt (n + 1)).1 - (zigPt n).1 = if n % 2 = 0 then 2 else -1 := by
  simp [zigPt]

/-- Second coordinates of the zig-zag steps. -/
theorem zigPt_step2 (n : ℕ) :
    (zigPt (n + 1)).2 - (zigPt n).2 = if n % 2 = 0 then 0 else Real.sqrt 3 := by
  simp [zigPt]

/-- Every vertex of the zig-zag is a direction change: consecutive steps
are (2,0) and (-1,√3), both of length 2 with dot product -2 — an exact
120-degree turn. -/
theorem zigPt_dirChange (i : ℕ) :
    dirChange (zigPt i) (zigPt (i + 1)) (zigPt (i + 2)) := by
  rw [dirChange_iff]
  rw [show i + 2 = (i + 1) + 1 from rfl, zigPt_step1, zigPt_step2,
    zigPt_step1, zigPt_step2]
  have h3 : Real.sqrt 3 ^ 2 = 3 := Real.sq_sqrt (by norm_num)
  by_cases hi : i % 2 = 0
  · have hi1 : ¬ (i + 1) % 2 = 0 := by omega
    rw [if_pos hi, if_pos hi, if_neg hi1, if_neg hi1]
    refine ⟨by norm_num, by rw [h3]; norm_num, by norm_num⟩
  · have hi1 : (i + 1) % 2 = 0 := by omega
    rw [if_neg hi, if_neg hi, if_pos hi1, if_pos hi1]
    refine ⟨by rw [h3]; norm_num, by norm_num, by norm_num⟩

/-- The 15-position zig-zag has 13 direction changes. -/
theorem countDC_zigList : countDC zigList = 13 := by
  have h := countDC_of_forall zigList ?_
  · rw [h]
    simp [zigList]
  · intro i hi
    simp only [zigList, List.length_map, List.length_range] at hi
    simp only [zigList, List.getElem_map, List.getElem_range]
    exact zigPt_dirChange i

/-- No vertex of the straight line is a direction change. -/
theorem countDC_linePts : countDC linePts = 0 := by
  apply countDC_of_forall_not
  intro i hi
  simp only [linePts, List.length_map, List.length_range] at hi
  simp only [linePts, List.getElem_map, List.getElem_range]
  rw [dirChange_iff]
  rintro ⟨-, -, hdot⟩
  push_cast at hdot
  norm_num at hdot

/-- C6: the erratic test refuses histories shorter than 10 positions;
otherwise it counts direction changes (angle above 90 degrees, zero
vectors skipped) over the last 15 stored positions and qualifies at 5
or more; it accepts the 15-position ±120-degree zig-zag (13 changes)
and rejects an equally long straight line (0 changes). -/
theorem erratic_characterization :
    (∀ t : TrackedObject, t.position_history.length < 10 → ¬ detect_erratic t) ∧
    (∀ t : TrackedObject, detect_erratic t ↔
      ¬ t.position_history.length < 10 ∧
        5 ≤ countDC (lastN 15 (t.position_history.map castPt))) ∧
    erraticPts zigList ∧ ¬ erraticPts linePts := by
  refine ⟨?_, ?_, ?_, ?_⟩
  · rintro t h ⟨h1, -⟩
    exact h1 (by simpa using h)
  · intro t
    unfold detect_erratic erraticPts
    rw [List.length_map]
  · refine ⟨by simp [zigList], ?_⟩
    rw [show lastN 15 zigList = zigList by simp [lastN, zigList], countDC_zigList]
    norm_num
  · rintro ⟨-, h5⟩
    rw [show lastN 15 linePts = linePts by simp [lastN, linePts], countDC_linePts] at h5
    exact absurd h5 (by norm_num)

/-- Witness for C6 at a one-position track. -/
theorem erratic_characterization_witness :
    ¬ detect_erratic (TrackedObject.init 0 dP 1) :=
  erratic_characterization.1 (TrackedObject.init 0 dP 1) (by decide)

/-! ## C7: the loitering cadence of a persistent slow track.

The scenario: one person detection per frame, at position `p n` in frame
`n` (`n = 1, 2, ...`), each step moving less than 10 px.  `runState` /
`runEvents` run the real pipeline over this stream; `modelState` /
`modelEvents` are the closed forms, driven by the erratic-qualification
pattern `q`.  The lemmas below close the induction between the two. -/

/-- Dropping a prefix preserves chainedness. -/
theorem chain_drop (R : α → α → Prop) (k : ℕ) (l : List α)
    (h : List.Chain' R l) : List.Chain' R (l.drop k) := by
  induction k with
  | zero => exact h
  | succ k ih =>
    rw [← List.tail_drop]
    exact ih.tail

/-- The element just pushed onto a capped deque is its last element. -/
theorem getLast_push30 (l : List α) (x : α) :
    (push30 l x).getLast? = some x := by
  unfold push30 lastN
  rw [List.drop_append_of_le_length (by simp)]
  exact List.getLast?_concat _

/-- Pushing onto a capped deque preserves chainedness when the new
element relates to the old last element. -/
theorem chain_push30 (R : α → α → Prop) (l : List α) (y : α)
    (hc : List.Chain' R l) (hl : ∀ x, l.getLast? = some x → R x y) :
    List.Chain' R (push30 l y) := by
  have happ : List.Chain' R (l ++ [y]) := by
    rw [List.chain'_append]
    refine ⟨hc, List.chain'_singleton y, fun x hx z hz => ?_⟩
    rw [List.head?_cons, Option.mem_def] at hz
    obtain rfl := Option.some.inj hz
    exact hl x hx
  exact chain_drop R _ _ happ

/-- Extracting one link of a chain by index. -/
theorem chain_getElem {R : α → α → Prop} {l : List α}
    (hc : List.Chain' R l) (i : ℕ) (hi : i + 1 < l.length) :
    R l[i] l[i + 1] := by
  rw [List.chain'_iff_get] at hc
  simpa using hc i (by omega)

/-- Length of the scenario position history. -/
theorem histAt_length (p : ℕ → ℤ × ℤ) (n : ℕ) :
    (histAt p n).length = min n 30 := by
  induction n with
  | zero => simp [histAt]
  | succ n ih =>
    show (push30 (histAt p n) (p (n + 1))).length = _
    rw [push30_length, ih]
    omega

/-- Last entry of the scenario position history. -/
theorem histAt_getLast (p : ℕ → ℤ × ℤ) (n : ℕ) (hn : 1 ≤ n) :
    (histAt p n).getLast? = some (p n) := by
  obtain ⟨m, rfl⟩ : ∃ m, n = m + 1 := ⟨n - 1, by omega⟩
  exact getLast_push30 _ _

/-- Most recent position of the scenario track. -/
theorem lastPos_trackAt (p : ℕ → ℤ × ℤ) (n : ℕ) (hn : 1 ≤ n) :
    lastPos (trackAt p n) = p n := by
  unfold lastPos
  show ((histAt p n).getLast?).getD (0, 0) = p n
  rw [histAt_getLast p n hn]
  rfl

/-- With sub-10 px steps, consecutive stored positions of the scenario
track stay within 10 px of each other. -/
theorem histAt_chain (p : ℕ → ℤ × ℤ)
    (hd : ∀ n, dist2 (p n) (p (n + 1)) < 100) (n : ℕ) :
    List.Chain' (fun a b => dist2 a b < 100) (histAt p n) := by
  induction n with
  | zero => simp [histAt]
  | succ n ih =>
    refine chain_push30 _ _ _ ih fun x hx => ?_
    cases n with
    | zero => simp [histAt] at hx
    | succ m =>
      rw [histAt_getLast p (m + 1) (by omega)] at hx
      obtain rfl := Option.some.inj hx
      exact hd (m + 1)

/-- The summed path length of a sub-10 px chain is below 10 px per
step. -/
theorem pathLen_le (l : List (ℤ × ℤ))
    (hc : List.Chain' (fun a b => dist2 a b < 100) l) :
    pathLen l ≤ 10 * ((l.length - 1 : ℕ) : ℝ) := by
  match l with
  | [] => simp [pathLen]
  | [a] => simp [pathLen]
  | a :: b :: r =>
    rw [List.chain'_cons] at hc
    have h1 : rdist a b ≤ 10 := by
      have := (rdist_lt_const_iff a b 10 (by norm_num)).2 hc.1
      have h10 : ((10 : ℤ) : ℝ) = 10 := by norm_num
      linarith [h10 ▸ this]
    have h2 := pathLen_le (b :: r) hc.2
    show rdist a b + pathLen (b :: r) ≤ 10 * (((a :: b :: r).length - 1 : ℕ) : ℝ)
    have e1 : ((a :: b :: r).length - 1 : ℕ) = r.length + 1 := by simp
    have e2 : ((b :: r).length - 1 : ℕ) = r.length := by simp
    rw [e1]
    rw [e2] at h2
    push_cast at h2 ⊢
    linarith

/-- With sub-10 px steps the scenario track never classifies as
fast-moving (its speed stays at most 10 < 15). -/
theorem trackAt_not_fast (p : ℕ → ℤ × ℤ)
    (hd : ∀ n, dist2 (p n) (p (n + 1)) < 100) (n : ℕ) :
    ¬ (trackAt p n).is_moving_fast := by
  unfold TrackedObject.is_moving_fast TrackedObject.get_speed
  have hh : (trackAt p n).position_history = histAt p n := rfl
  by_cases h2 : (trackAt p n).position_history.length < 2
  · rw [if_pos h2]
    norm_num
  · rw [if_neg h2]
    intro h15
    rw [hh] at h15 h2
    have hch : List.Chain' (fun a b => dist2 a b < 100) (lastN 10 (histAt p n)) :=
      chain_drop _ _ _ (histAt_chain p hd n)
    have hlen : 2 ≤ (lastN 10 (histAt p n)).length := by
      rw [lastN_length]
      omega
    have hle := pathLen_le _ hch
    have h15a : 15 < pathLen (lastN 10 (histAt p n)) /
        (((lastN 10 (histAt p n)).length - 1 : ℕ) : ℝ) := h15
    set L := (lastN 10 (histAt p n)).length with hL
    have hk : (0 : ℝ) < ((L - 1 : ℕ) : ℝ) := by
      have h1 : 1 ≤ L - 1 := by omega
      exact_mod_cast Nat.lt_of_lt_of_le Nat.zero_lt_one h1
    rw [lt_div_iff hk] at h15a
    linarith

/-- The scenario track, first seen at frame 1, has been in view for `n`
frames at frame `n`. -/
theorem trackAt_time_in_view (p : ℕ → ℤ × ℤ) (n : ℕ) (hn : 1 ≤ n) :
    (trackAt p n).time_in_view = n := by
  show n - 1 + 1 = n
  omega

/-- Every frame of the scenario, the new detection matches the single
existing track (same class, zero recency gap, distance below 10 px). -/
theorem match_model (p : ℕ → ℤ × ℤ)
    (hd : ∀ n, dist2 (p n) (p (n + 1)) < 100) (n : ℕ) (hn : 1 ≤ n)
    (N : ℕ) (cd : List (ℕ × ℕ)) :
    match_detection_to_tracked
        { tracked_objects := [(0, trackAt p n)], next_object_id := N
          frame_count := n + 1, alert_cooldown := cd } (mkDet (p (n + 1))) =
      some 0 := by
  unfold match_detection_to_tracked
  dsimp only
  simp only [matchGo]
  rw [if_neg (show ¬ (trackAt p n).class_name ≠ (mkDet (p (n + 1))).class_name
      from fun h => h rfl)]
  rw [if_neg (show ¬ (trackAt p n).last_seen + 10 < n + 1 from by
      show ¬ n + 10 < n + 1
      omega)]
  rw [if_pos (show dist2 (lastPos (trackAt p n)) (mkDet (p (n + 1))).center < 10000 from by
      rw [lastPos_trackAt p n hn]
      have := hd n
      show dist2 (p n) (p (n + 1)) < 10000
      omega)]

/-- One tracker update moves the scenario track from its frame-`n` to
its frame-`n+1` closed form (the stationary run grows by one and the
stationary latch flips exactly at run 31, i.e. frame 32). -/
theorem trackAt_update (p : ℕ → ℤ × ℤ)
    (hd : ∀ n, dist2 (p n) (p (n + 1)) < 100) (n : ℕ) (hn : 1 ≤ n) :
    (trackAt p n).update (mkDet (p (n + 1))) (n + 1) = trackAt p (n + 1) := by
  unfold TrackedObject.update
  have hlp : lastPos (trackAt p n) = p n := lastPos_trackAt p n hn
  have hcen : (mkDet (p (n + 1))).center = p (n + 1) := rfl
  dsimp only
  rw [hlp, hcen]
  rw [if_pos (hd n), if_pos (hd n)]
  show TrackedObject.mk 0 "person" 1 (n + 1)
      (push30 (histAt p n) (p (n + 1)))
      (push30 (bbAt p n) (mkDet (p (n + 1))).bbox)
      (if 30 < (n - 1) + 1 then true else decide (32 ≤ n))
      ((n - 1) + 1) = trackAt p (n + 1)
  unfold trackAt
  rw [TrackedObject.mk.injEq]
  refine ⟨rfl, rfl, rfl, rfl, rfl, rfl, ?_, by omega⟩
  by_cases h30 : 30 < (n - 1) + 1
  · rw [if_pos h30]
    have : 32 ≤ n + 1 := by omega
    simp [this]
  · rw [if_neg h30]
    have h1 : ¬ 32 ≤ n := by omega
    have h2 : ¬ 32 ≤ n + 1 := by omega
    simp [h1, h2]

/-- Unfolding of `update_tracks` on an explicit state record. -/
theorem update_tracks_explicit (tr : List (ℕ × TrackedObject)) (N f : ℕ)
    (cd : List (ℕ × ℕ)) (dets : List Detection) :
    update_tracks (⟨tr, N, f, cd⟩ : AnalyzerState) dets =
      (let s2 := dets.foldl processDetection (⟨tr, N, f + 1, cd⟩ : AnalyzerState)
       (⟨s2.tracked_objects.filter (fun e => s2.frame_count ≤ e.2.last_seen + 30),
         s2.next_object_id, s2.frame_count, s2.alert_cooldown⟩ : AnalyzerState)) := rfl

/-- One tracker pass moves the scenario model state from frame `n` to
the frame-`n+1` track list (cooldown untouched by `update_tracks`). -/
theorem update_model (p : ℕ → ℤ × ℤ) (q : ℕ → Bool)
    (hd : ∀ n, dist2 (p n) (p (n + 1)) < 100) (n : ℕ) (hn : 1 ≤ n) :
    update_tracks (modelState p q n) [mkDet (p (n + 1))] =
      (⟨[(0, trackAt p (n + 1))], 1, n + 1, cdList (fireAt (qfull q) n)⟩ :
        AnalyzerState) := by
  have hm := match_model p hd n hn 1 (cdList (fireAt (qfull q) n))
  have hP : processDetection
      (⟨[(0, trackAt p n)], 1, n + 1, cdList (fireAt (qfull q) n)⟩ : AnalyzerState)
      (mkDet (p (n + 1))) =
      (⟨[(0, trackAt p (n + 1))], 1, n + 1, cdList (fireAt (qfull q) n)⟩ :
        AnalyzerState) := by
    rw [processDetection_matched _ _ 0 hm]
    show (⟨[(0, trackAt p n)].map
        (fun e => if e.1 = 0 then (e.1, e.2.update (mkDet (p (n + 1))) (n + 1)) else e),
        1, n + 1, cdList (fireAt (qfull q) n)⟩ : AnalyzerState) = _
    rw [List.map_cons, List.map_nil]
    dsimp only
    rw [if_pos rfl, trackAt_update p hd n hn]
  rw [show modelState p q n =
      (⟨[(0, trackAt p n)], 1, n, cdList (fireAt (qfull q) n)⟩ : AnalyzerState) from rfl]
  rw [update_tracks_explicit]
  dsimp only
  rw [List.foldl_cons, List.foldl_nil, hP]
  dsimp only
  rw [List.filter_cons, List.filter_nil]
  rw [if_pos (by simp [trackAt])]

/-- Frame 1 from the empty start state: the first detection founds track
0 with the frame-1 closed form. -/
theorem update_base (p : ℕ → ℤ × ℤ) :
    update_tracks AnalyzerState.start [mkDet (p 1)] =
      (⟨[(0, trackAt p 1)], 1, 1, []⟩ : AnalyzerState) := rfl

/-- The cooldown gate read by the classification pass agrees with the
model gate `cdOKB`. -/
theorem cooldown_model (q : ℕ → Bool) (m : ℕ) :
    cooldownActive (cdList (fireAt (qfull q) (m - 1))) m 0 = !cdOKB (qfull q) m := by
  unfold cooldownActive cdOKB
  cases hF : fireAt (qfull q) (m - 1) with
  | none => rfl
  | some mm =>
    show (match alLookup [(0, mm)] 0 with
      | none => false
      | some m2 => decide (m < m2 + 90)) = _
    rw [show alLookup [(0, mm)] 0 = some mm from rfl]
    dsimp only
    by_cases h : mm + 90 ≤ m
    · rw [decide_eq_true h, decide_eq_false (show ¬ m < mm + 90 by omega)]
      rfl
    · rw [decide_eq_false h, decide_eq_true (show m < mm + 90 by omega)]
      rfl

/-- Unfolding equation of the fire-model recursion. -/
theorem fireAt_succ (q2 : ℕ → Bool) (n : ℕ) :
    fireAt q2 (n + 1) =
      match fireAt q2 n with
      | none => if q2 (n + 1) = true then some (n + 1) else none
      | some m => if m + 90 ≤ n + 1 ∧ q2 (n + 1) = true then some (n + 1) else some m := by
  rfl

open Classical in
/-- One classification pass over the scenario model state at frame `m`:
it emits exactly the model events and advances the cooldown model by one
frame. -/
theorem detect_model (p : ℕ → ℤ × ℤ) (q : ℕ → Bool)
    (hd : ∀ n, dist2 (p n) (p (n + 1)) < 100)
    (hq : ∀ n, 1 ≤ n → (detect_erratic (trackAt p n) ↔ q n = true))
    (m : ℕ) (hm : 1 ≤ m) :
    detect_suspicious_behaviors
        (⟨[(0, trackAt p m)], 1, m, cdList (fireAt (qfull q) (m - 1))⟩ : AnalyzerState) =
      (modelEvents p q m, cdList (fireAt (qfull q) m)) := by
  have hm1 : m - 1 + 1 = m := by omega
  have hfast : ¬ ((trackAt p m).is_moving_fast ∧ 10 < (trackAt p m).time_in_view) :=
    fun h => trackAt_not_fast p hd m h.1
  have hloit : ((trackAt p m).is_stationary = true ∧ 150 < (trackAt p m).time_in_view) ↔
      151 ≤ m := by
    rw [trackAt_time_in_view p m hm]
    show (decide (32 ≤ m) = true ∧ 150 < m) ↔ 151 ≤ m
    simp only [decide_eq_true_eq]
    omega
  have herr : detect_erratic (trackAt p m) ↔ q m = true := hq m hm
  unfold detect_suspicious_behaviors
  dsimp only
  rw [List.foldl_cons, List.foldl_nil, detectStep_eq]
  dsimp only
  by_cases hOK : cdOKB (qfull q) m = true
  · have hact : cooldownActive (cdList (fireAt (qfull q) (m - 1))) m 0 = false := by
      rw [cooldown_model, hOK]
      rfl
    rw [if_pos (show (trackAt p m).class_name = "person" ∧
        cooldownActive (cdList (fireAt (qfull q) (m - 1))) m 0 = false from ⟨rfl, hact⟩)]
    have hfired : entryFired (trackAt p m) ↔ qfull q m = true := by
      unfold entryFired qfull
      rw [Bool.or_eq_true, decide_eq_true_eq]
      constructor
      · rintro (h | h | h)
        · exact absurd h hfast
        · exact Or.inr (hloit.1 h)
        · exact Or.inl (herr.1 h)
      · rintro (h | h)
        · exact Or.inr (Or.inr (herr.2 h))
        · exact Or.inr (Or.inl (hloit.2 h))
    have hEv : entryEvents 0 (trackAt p m) = modelEvents p q m := by
      unfold entryEvents modelEvents
      rw [if_neg hfast, List.nil_append]
      refine congrArg₂ (· ++ ·) ?_ ?_
      · refine if_congr ?_ rfl rfl
        rw [hloit]
        constructor
        · intro h
          exact ⟨h, hOK⟩
        · intro h
          exact h.1
      · refine if_congr ?_ rfl rfl
        rw [herr]
        constructor
        · intro h
          exact ⟨h, hOK⟩
        · intro h
          exact h.1
    have hcdEq : (if entryFired (trackAt p m)
          then alSet (cdList (fireAt (qfull q) (m - 1))) 0 m
          else cdList (fireAt (qfull q) (m - 1))) =
        cdList (fireAt (qfull q) m) := by
      by_cases hf : entryFired (trackAt p m)
      · have hqm : qfull q m = true := hfired.1 hf
        have hFm : fireAt (qfull q) m = some m := by
          conv_lhs => rw [← hm1]
          rw [fireAt_succ]
          cases hF : fireAt (qfull q) (m - 1) with
          | none =>
            dsimp only
            rw [hm1, if_pos hqm]
          | some mm =>
            have hle : mm + 90 ≤ m := by
              have h2 := hOK
              unfold cdOKB at h2
              rw [hF] at h2
              simpa using h2
            dsimp only
            rw [hm1, if_pos ⟨hle, hqm⟩]
        rw [if_pos hf, hFm]
        cases fireAt (qfull q) (m - 1) <;> rfl
      · have hqm : qfull q m = false := by
          cases h : qfull q m
          · rfl
          · exact absurd (hfired.2 h) hf
        have hFm : fireAt (qfull q) m = fireAt (qfull q) (m - 1) := by
          conv_lhs => rw [← hm1]
          rw [fireAt_succ]
          cases hF : fireAt (qfull q) (m - 1) with
          | none =>
            dsimp only
            rw [hm1, hqm]
            rfl
          | some mm =>
            dsimp only
            rw [hm1, hqm]
            simp
        rw [if_neg hf, hFm]
    rw [List.nil_append, hEv, hcdEq]
  · have hOKf : cdOKB (qfull q) m = false := by
      cases h : cdOKB (qfull q) m
      · rfl
      · exact absurd h hOK
    have hact : cooldownActive (cdList (fireAt (qfull q) (m - 1))) m 0 = true := by
      rw [cooldown_model, hOKf]
      rfl
    rw [if_neg (fun h => by rw [h.2] at hact; exact Bool.false_ne_true hact)]
    have hme : modelEvents p q m = [] := by
      unfold modelEvents
      rw [if_neg (fun h => hOK h.2), if_neg (fun h => hOK h.2)]
      rfl
    obtain ⟨mm, hF, hlt⟩ : ∃ mm, fireAt (qfull q) (m - 1) = some mm ∧ m < mm + 90 := by
      have h2 := hOKf
      unfold cdOKB at h2
      cases hF : fireAt (qfull q) (m - 1) with
      | none =>
        rw [hF] at h2
        exact absurd h2 (by simp)
      | some mm =>
        rw [hF] at h2
        exact ⟨mm, rfl, by simpa using h2⟩
    have hFm : fireAt (qfull q) m = some mm := by
      conv_lhs => rw [← hm1]
      rw [fireAt_succ, hF]
      dsimp only
      rw [hm1, if_neg (fun h => by omega)]
    rw [hme, hFm, hF]

/-- Closed form of the whole scenario run: with sub-10 px steps and
erratic pattern `q`, the pipeline state and per-frame emissions agree
with the model at every frame. -/
theorem runClosed (p : ℕ → ℤ × ℤ) (q : ℕ → Bool)
    (hd : ∀ n, dist2 (p n) (p (n + 1)) < 100)
    (hq : ∀ n, 1 ≤ n → (detect_erratic (trackAt p n) ↔ q n = true)) :
    ∀ n, 1 ≤ n →
      runState p n = modelState p q n ∧ runEvents p n = modelEvents p q n := by
  intro n
  induction n with
  | zero => intro h; exact absurd h (by omega)
  | succ m ih =>
    intro _
    have hstate : update_tracks (runState p m) [mkDet (p (m + 1))] =
        (⟨[(0, trackAt p (m + 1))], 1, m + 1, cdList (fireAt (qfull q) m)⟩ :
          AnalyzerState) := by
      by_cases hm : 1 ≤ m
      · rw [(ih hm).1]
        exact update_model p q hd m hm
      · have hm0 : m = 0 := by omega
        subst hm0
        show update_tracks AnalyzerState.start [mkDet (p 1)] = _
        rw [update_base p]
        rfl
    have hdet := detect_model p q hd hq (m + 1) (by omega)
    simp only [Nat.add_sub_cancel] at hdet
    constructor
    · show (analyzerStep (runState p m) [mkDet (p (m + 1))]).1 = modelState p q (m + 1)
      unfold analyzerStep
      dsimp only
      rw [hstate, hdet]
      rfl
    · show (analyzerStep (runState p m) [mkDet (p (m + 1))]).2 = modelEvents p q (m + 1)
      unfold analyzerStep
      dsimp only
      rw [hstate, hdet]

/-- Closed form of the cooldown model when only loitering ever
qualifies: alerts at frames `151, 241, 331, ...` (every 90 frames). -/
theorem fireAt_loiter (n : ℕ) :
    fireAt (qfull qnone) n =
      if n < 151 then none else some (151 + 90 * ((n - 151) / 90)) := by
  induction n with
  | zero => rfl
  | succ n ih =>
    rw [fireAt_succ, ih]
    have hq : qfull qnone (n + 1) = decide (151 ≤ n + 1) := by
      show (false || decide (151 ≤ n + 1)) = _
      rw [Bool.false_or]
    by_cases h1 : n + 1 < 151
    · rw [if_pos (show n < 151 by omega)]
      dsimp only
      rw [hq, decide_eq_false (show ¬ 151 ≤ n + 1 by omega)]
      rw [if_neg Bool.false_ne_true, if_pos h1]
    · have h151 : 151 ≤ n + 1 := by omega
      by_cases h2 : n < 151
      · rw [if_pos h2]
        dsimp only
        rw [hq, decide_eq_true h151, if_pos rfl, if_neg h1]
        have hn : n = 150 := by omega
        subst hn
        norm_num
      · rw [if_neg h2]
        dsimp only
        rw [hq, decide_eq_true h151, if_neg h1]
        by_cases h3 : 151 + 90 * ((n - 151) / 90) + 90 ≤ n + 1
        · rw [if_pos ⟨h3, rfl⟩]
          exact congrArg some (by omega)
        · rw [if_neg (fun hh => h3 hh.1)]
          exact congrArg some (by omega)

/-- The model gate, with only loitering qualifying, is open exactly
before frame 151 and at frames `151 + 90k`. -/
theorem cdOK_loiter (n : ℕ) (hn : 1 ≤ n) :
    cdOKB (qfull qnone) n = true ↔ (n < 151 ∨ (n - 151) % 90 = 0) := by
  unfold cdOKB
  rw [fireAt_loiter (n - 1)]
  by_cases h1 : n - 1 < 151
  · rw [if_pos h1]
    dsimp only
    constructor
    · intro
      omega
    · intro
      rfl
  · rw [if_neg h1]
    dsimp only
    rw [decide_eq_true_eq]
    omega

/-- The history of the motionless stream is a constant list. -/
theorem histAt_pconst (n : ℕ) :
    histAt pconst n = List.replicate (min n 30) ((0 : ℤ), (0 : ℤ)) := by
  induction n with
  | zero => rfl
  | succ n ih =>
    show push30 (histAt pconst n) (pconst (n + 1)) = _
    rw [ih]
    show push30 (List.replicate (min n 30) ((0 : ℤ), (0 : ℤ))) ((0 : ℤ), (0 : ℤ)) = _
    unfold push30 lastN
    rw [← List.replicate_succ', List.length_replicate, List.drop_replicate]
    congr 1
    omega

/-- The motionless track never classifies as erratic (its displacement
vectors are all zero, so no triple counts as a direction change). -/
theorem erratic_pconst (n : ℕ) : ¬ detect_erratic (trackAt pconst n) := by
  unfold detect_erratic erraticPts
  rintro ⟨h10, h5⟩
  have hh : (trackAt pconst n).position_history = histAt pconst n := rfl
  rw [hh, histAt_pconst, List.map_replicate] at h5
  have hc : countDC (lastN 15 (List.replicate (min n 30) (castPt (0, 0)))) = 0 := by
    unfold lastN
    rw [List.length_replicate, List.drop_replicate]
    apply countDC_of_forall_not
    intro i hi
    rw [List.getElem_replicate, List.getElem_replicate, List.getElem_replicate]
    rw [dirChange_iff]
    rintro ⟨hA, -, -⟩
    norm_num [castPt] at hA
  rw [hc] at h5
  omega

/-- C7 (amended): for a person detected every frame with every step
under 10 px and never qualifying as erratic, the stationary run at frame
`n` is `n - 1`, the stationary latch together with the time-in-view
threshold holds exactly from frame 151 on, and a loitering event — with
confidence `min(time_in_view / 300, 1)` — is emitted exactly at frames
`151 + 90k`: at the first qualifying frame and then once per 90-frame
cooldown window, never twice within 90 frames.  (Without the
never-erratic hypothesis this cadence is false: see
`loitering_first_frame_counterexample` — the cooldown is shared by all
behavior kinds of the track, so an earlier erratic alert delays the
first loitering event past the first qualifying frame.) -/
theorem loitering_cadence (p : ℕ → ℤ × ℤ)
    (hd : ∀ n, dist2 (p n) (p (n + 1)) < 100)
    (herr : ∀ n, 1 ≤ n → ¬ detect_erratic (trackAt p n))
    (n : ℕ) (hn : 1 ≤ n) :
    (runState p n).tracked_objects = [(0, trackAt p n)] ∧
    runEvents p n =
      (if 151 ≤ n ∧ (n - 151) % 90 = 0 then [loiterEvent 0 (trackAt p n)] else []) ∧
    (loiterEvent 0 (trackAt p n)).confidence = min ((n : ℝ) / 300) 1 ∧
    ((trackAt p n).is_stationary = true ∧ 150 < (trackAt p n).time_in_view ↔ 151 ≤ n) ∧
    (trackAt p n).stationary_frames = n - 1 := by
  have hq : ∀ m, 1 ≤ m → (detect_erratic (trackAt p m) ↔ qnone m = true) := by
    intro m hm
    constructor
    · intro h
      exact absurd h (herr m hm)
    · intro h
      exact absurd h Bool.false_ne_true
  obtain ⟨hs, he⟩ := runClosed p qnone hd hq n hn
  refine ⟨by rw [hs]; rfl, ?_, ?_, ?_, rfl⟩
  · rw [he]
    unfold modelEvents
    rw [if_neg (show ¬ (qnone n = true ∧ cdOKB (qfull qnone) n = true) from
        fun h => Bool.false_ne_true h.1), List.append_nil]
    refine if_congr ?_ rfl rfl
    constructor
    · rintro ⟨h1, h2⟩
      exact ⟨h1, ((cdOK_loiter n hn).1 h2).resolve_left (by omega)⟩
    · rintro ⟨h1, h2⟩
      exact ⟨h1, (cdOK_loiter n hn).2 (Or.inr h2)⟩
  · show min (((trackAt p n).time_in_view : ℝ) / 300) 1 = min ((n : ℝ) / 300) 1
    rw [trackAt_time_in_view p n hn]
  · rw [trackAt_time_in_view p n hn]
    show (decide (32 ≤ n) = true ∧ 150 < n) ↔ 151 ≤ n
    simp only [decide_eq_true_eq]
    omega

/-- C7 witness: the motionless person stream emits its loitering events
exactly at frames 151 and 241, and nothing at frame 152. -/
theorem loitering_cadence_witness :
    runEvents pconst 151 = [loiterEvent 0 (trackAt pconst 151)] ∧
    runEvents pconst 241 = [loiterEvent 0 (trackAt pconst 241)] ∧
    runEvents pconst 152 = [] := by
  have hd : ∀ n, dist2 (pconst n) (pconst (n + 1)) < 100 := by
    intro n
    show dist2 (0, 0) (0, 0) < 100
    decide
  have herr : ∀ n, 1 ≤ n → ¬ detect_erratic (trackAt pconst n) :=
    fun n _ => erratic_pconst n
  refine ⟨?_, ?_, ?_⟩
  · rw [(loitering_cadence pconst hd herr 151 (by norm_num)).2.1,
      if_pos (by decide)]
  · rw [(loitering_cadence pconst hd herr 241 (by norm_num)).2.1,
      if_pos (by decide)]
  · rw [(loitering_cadence pconst hd herr 152 (by norm_num)).2.1,
      if_neg (by decide)]

/-- The zig-zag stream moves 3 px per frame — comfortably stationary. -/
theorem palt_steps (n : ℕ) : dist2 (palt n) (palt (n + 1)) < 100 := by
  by_cases h : n % 2 = 0
  · rw [show palt n = ((0 : ℤ), (0 : ℤ)) from by unfold palt; rw [if_pos h],
      show palt (n + 1) = ((3 : ℤ), (0 : ℤ)) from by unfold palt; rw [if_neg (by omega)]]
    decide
  · rw [show palt n = ((3 : ℤ), (0 : ℤ)) from by unfold palt; rw [if_neg h],
      show palt (n + 1) = ((0 : ℤ), (0 : ℤ)) from by unfold palt; rw [if_pos (by omega)]]
    decide

/-- Stored positions of the zig-zag stream alternate between the origin
and (3, 0). -/
theorem histAt_palt_chain (n : ℕ) :
    List.Chain' (fun a b => (a = ((0 : ℤ), (0 : ℤ)) ∧ b = ((3 : ℤ), (0 : ℤ))) ∨
      (a = ((3 : ℤ), (0 : ℤ)) ∧ b = ((0 : ℤ), (0 : ℤ)))) (histAt palt n) := by
  induction n with
  | zero => simp [histAt]
  | succ n ih =>
    refine chain_push30 _ _ _ ih fun x hx => ?_
    cases n with
    | zero => simp [histAt] at hx
    | succ m =>
      rw [histAt_getLast palt (m + 1) (by omega)] at hx
      obtain rfl := Option.some.inj hx
      by_cases h : (m + 1) % 2 = 0
      · refine Or.inl ⟨?_, ?_⟩
        · show palt (m + 1) = _
          unfold palt
          rw [if_pos h]
        · show palt (m + 2) = _
          unfold palt
          rw [if_neg (by omega)]
      · refine Or.inr ⟨?_, ?_⟩
        · show palt (m + 1) = _
          unfold palt
          rw [if_neg h]
        · show palt (m + 2) = _
          unfold palt
          rw [if_pos (by omega)]

/-- On a 0/3-alternating position list, every consecutive triple is a
direction change (the two 3 px displacement vectors point in opposite
directions), so the count is the full number of triples. -/
theorem countDC_map_alt (l : List (ℤ × ℤ))
    (hch : List.Chain' (fun a b => (a = ((0 : ℤ), (0 : ℤ)) ∧ b = ((3 : ℤ), (0 : ℤ))) ∨
      (a = ((3 : ℤ), (0 : ℤ)) ∧ b = ((0 : ℤ), (0 : ℤ)))) l) :
    countDC (l.map castPt) = l.length - 2 := by
  rw [countDC_of_forall]
  · rw [List.length_map]
  · intro i hi
    rw [List.length_map] at hi
    have hA := chain_getElem hch i (by omega)
    have hB := chain_getElem hch (i + 1) (by omega)
    rw [List.getElem_map, List.getElem_map, List.getElem_map, dirChange_iff]
    rcases hA with ⟨ha, hb⟩ | ⟨ha, hb⟩ <;> rcases hB with ⟨hb2, hc2⟩ | ⟨hb2, hc2⟩
    · rw [hb] at hb2
      exact absurd hb2 (by decide)
    · rw [ha, hb, hc2]
      norm_num [castPt]
    · rw [ha, hb, hc2]
      norm_num [castPt]
    · rw [hb] at hb2
      exact absurd hb2 (by decide)

/-- The zig-zag track classifies as erratic exactly once ten positions
have accumulated, i.e. from frame 10 on. -/
theorem erratic_palt (n : ℕ) (hn : 1 ≤ n) :
    detect_erratic (trackAt palt n) ↔ qalt n = true := by
  have hh : (trackAt palt n).position_history = histAt palt n := rfl
  unfold detect_erratic erraticPts
  rw [hh]
  have hmap : lastN 15 ((histAt palt n).map castPt) =
      (lastN 15 (histAt palt n)).map castPt := by
    unfold lastN
    rw [List.length_map, ← List.map_drop]
  have hcount : countDC (lastN 15 ((histAt palt n).map castPt)) =
      (lastN 15 (histAt palt n)).length - 2 := by
    rw [hmap, countDC_map_alt (lastN 15 (histAt palt n))
      (by unfold lastN; exact chain_drop _ _ _ (histAt_palt_chain n))]
  rw [hcount, List.length_map, histAt_length, lastN_length, histAt_length]
  show (¬ min n 30 < 10 ∧ 5 ≤ min 15 (min n 30) - 2) ↔ decide (10 ≤ n) = true
  rw [decide_eq_true_eq]
  constructor
  · rintro ⟨h1, -⟩
    omega
  · intro h
    exact ⟨by omega, by omega⟩

/-- C7 (counterexample): under the 3 px zig-zag stream the track is a
person, stationary (run 150 > 30) and in view 151 > 150 frames at frame
151 — the first frame where both loitering conditions hold — yet frame
151 emits nothing: the track's erratic alerts (fired at frames 10 and
100) stamped the shared per-track cooldown, which at frame 151 is still
hot, so the first loitering event is not emitted at the first qualifying
frame. -/
theorem loitering_first_frame_counterexample :
    (runState palt 151).tracked_objects = [(0, trackAt palt 151)] ∧
    (trackAt palt 151).class_name = "person" ∧
    (trackAt palt 151).stationary_frames = 150 ∧
    (trackAt palt 151).is_stationary = true ∧
    (trackAt palt 151).time_in_view = 151 ∧
    runEvents palt 151 = [] := by
  obtain ⟨hs, he⟩ := runClosed palt qalt palt_steps
    (fun n hn => erratic_palt n hn) 151 (by norm_num)
  refine ⟨by rw [hs]; rfl, rfl, rfl, by decide, rfl, ?_⟩
  rw [he]
  unfold modelEvents
  have hcd : cdOKB (qfull qalt) 151 = false := by decide
  rw [if_neg (fun h => by rw [hcd] at h; exact Bool.false_ne_true h.2),
    if_neg (fun h => by rw [hcd] at h; exact Bool.false_ne_true h.2)]
  rfl
